import Mathlib

/-!
# The streaming constructor of `index_connection`

A shallow embedding of `index_connection::index_connection`
(`src/index_connection.cc`): the constructor drains a connection into a
temporary backing file in double-buffered chunks, indexes every chunk with
`index_region`, memory-maps the file and derives the row and column counts.

* Bytes are natural numbers, `size_t` values are natural numbers reduced
  modulo `2 ^ 64`, `int` values are integers reduced to 32 bits.
* The connection is the list of the blocks its successive reads return; a
  read on an exhausted connection returns zero bytes.
* `find_first_line`, `guess_delim`, `find_next_newline` and `index_region`
  are declared outside `index_connection.cc`; they are parameters
  (`Helpers`).  `index_region` is taken to append offsets to its destination.
* The asynchronous write started by `std::async` runs on its own thread: its body
  runs either as soon as it is started or at the point where it is joined
  (`fut.wait()`, or the destructor of `fut` when the constructor is left), as the
  schedule `Env.eager` says.  The bytes it writes are those in the buffer when it runs.
* The stream `out` hands accepted bytes straight to the file; a write on a closed or
  failed stream writes nothing and raises nothing.
* The driving thread records what it does in a trace of events; the claims about the
  order of reads, scans, waits and writes are stated on this trace.
-/

namespace vroom

/-- One `char` of a buffer. -/
abbrev byte := Nat

/-- Reduction of a value to `size_t` (64 bits). -/
def usize (n : Nat) : Nat := n % 2 ^ 64

/-- Conversion of an `int` to `size_t`. -/
def to_size_t (z : Int) : Nat := (z % 2 ^ 64).toNat

/-- Narrowing of a `size_t` to a 32 bit `int` (two's complement). -/
def to_int (n : Nat) : Int :=
  if n % 2 ^ 32 < 2 ^ 31 then ((n % 2 ^ 32 : Nat) : Int) else ((n % 2 ^ 32 : Nat) : Int) - 2 ^ 32

/-- The arguments of the constructor (the connection itself is in `Env`). -/
structure Args where
  delim : Option (List byte)
  quote : byte
  trim_ws : Bool
  escape_double : Bool
  escape_backslash : Bool
  has_header : Bool
  skip : Nat
  comment : byte
  chunk_size : Nat
  progress : Bool

/-- The data members of `index_connection` the constructor assigns. -/
structure index_connection where
  has_header_ : Bool
  quote_ : byte
  trim_ws_ : Bool
  escape_double_ : Bool
  escape_backslash_ : Bool
  comment_ : byte
  skip_ : Nat
  progress_ : Bool
  delim_len_ : Nat
  windows_newlines_ : Bool
  idx_0 : List Nat
  idx_1 : List Nat
  columns_ : Nat
  rows_ : Nat
  mmap_ : Option (List byte)
deriving DecidableEq

/-- The functions the constructor calls that are declared outside
`index_connection.cc`.  Each receives the object as it is at the call.
`index_region self source delim quote start end file_offset` returns the
offsets it appends to its destination. -/
structure Helpers where
  find_first_line : index_connection → List byte → Nat
  guess_delim : index_connection → List byte → Nat → byte
  find_next_newline : index_connection → List byte → Nat → Nat
  index_region : index_connection → List byte → List byte → byte → Nat → Nat → Nat → List Nat

/-- The world around the constructor: the connection, the file system and the
scheduling of the asynchronous writes. -/
structure Env where
  /-- the blocks returned by the successive reads of the connection -/
  con : List (List byte)
  /-- whether the backing file can be created -/
  open_ok : Bool
  /-- whether the k-th call of `out.write` is accepted by the stream -/
  write_ok : Nat → Bool
  /-- the error value `make_mmap_source` reports for a file content (`none`: no such file); 0 is success -/
  make_mmap_source : Option (List byte) → Nat
  /-- whether the k-th write task runs as soon as it is started (otherwise when it is joined) -/
  eager : Nat → Bool

/-- What the driving thread does, in order. -/
inductive Event where
  /-- `R_ReadConnection(con, buf[b].data(), n)` returned `sz` -/
  | read (b n sz : Nat)
  /-- `index_region(buf[b], idx_[dest], .., start, end, file_offset, ..)` -/
  | scan (b dest start end_ file_offset : Nat)
  /-- `fut.wait()` on a valid future -/
  | wait
  /-- `fut = std::async(.. out.write(buf[b].data(), sz) ..)` -/
  | launch (b sz : Nat)
  /-- the body of a write task ran: `out.write` of these bytes, accepted or not -/
  | write (data : List byte) (accepted : Bool)
  /-- `out.close()` -/
  | close
  /-- `mio::make_mmap_source(filename_, error)` -/
  | mmap
deriving DecidableEq

/-- A write task held by the future `fut`. -/
structure Task where
  b : Nat
  sz : Nat
  ran : Bool
deriving DecidableEq

/-- The output stream `out` and the file behind it. -/
structure ofstream where
  is_open : Bool
  fail : Bool
  file : Option (List byte)
  calls : Nat
deriving DecidableEq

/-- The object under construction, the local variables and the world. -/
structure Locals where
  self : index_connection
  out : ofstream
  con : List (List byte)
  buf0 : List byte
  buf1 : List byte
  i : Nat
  sz : Nat
  first_nl : Nat
  total_read : Int
  fut : Option Task
  launched : Nat
  trace : List Event
deriving DecidableEq

/-- How the constructor ends. -/
inductive Outcome where
  /-- the constructor returned -/
  | returned
  /-- `throw Rcpp::exception(error.message().c_str(), false)` for this error value -/
  | threw (error : Nat)
  /-- `total_size / columns_` was evaluated with `columns_ == 0` (undefined behaviour) -/
  | div_by_zero
deriving DecidableEq

/-- The result of a run of the constructor. -/
structure Run where
  outcome : Outcome
  self : index_connection
  file : Option (List byte)
  con : List (List byte)
  trace : List Event
deriving DecidableEq

/-- The buffer `buf[i]`. -/
def Locals.buf (s : Locals) (i : Nat) : List byte := if i = 0 then s.buf0 else s.buf1

/-- Assignment to the buffer `buf[i]`. -/
def Locals.set_buf (s : Locals) (i : Nat) (v : List byte) : Locals :=
  if i = 0 then { s with buf0 := v } else { s with buf1 := v }

/-- `std::ofstream out(filename_, out | binary | trunc)` on a fresh temporary name. -/
def ofstream.create (env : Env) : ofstream :=
  if env.open_ok then { is_open := true, fail := false, file := some [], calls := 0 }
  else { is_open := false, fail := true, file := none, calls := 0 }

/-- `out.write(data, sz)`: the bytes reach the file when the stream is open and good
and the write is accepted; otherwise the stream goes to its failed state. -/
def ofstream.write (env : Env) (o : ofstream) (data : List byte) : ofstream × Bool :=
  if o.is_open && !o.fail && env.write_ok o.calls then
    ({ o with file := o.file.map (fun f => f ++ data), calls := o.calls + 1 }, true)
  else
    ({ o with fail := true, calls := o.calls + 1 }, false)

/-- `out.close()`. -/
def ofstream.close (o : ofstream) : ofstream :=
  if o.is_open then { o with is_open := false } else { o with fail := true }

/-- `R_ReadConnection(con, buf, n)`: the next block of the connection, at most `n`
bytes of it, is stored at the start of `buf`; the result is the number of bytes,
the buffer and the rest of the connection. -/
def R_ReadConnection (con : List (List byte)) (buf : List byte) (n : Nat) :
    Nat × List byte × List (List byte) :=
  match con with
  | [] => (0, buf, [])
  | b :: rest => ((b.take n).length, b.take n ++ buf.drop (b.take n).length, rest)

/-- The read `sz = R_ReadConnection(con, buf[i].data(), chunk_size)`. -/
def read_chunk (chunk_size : Nat) (s : Locals) : Locals :=
  let r := R_ReadConnection s.con (s.buf s.i) chunk_size
  { s.set_buf s.i r.2.1 with
    sz := r.1, con := r.2.2, trace := s.trace ++ [Event.read s.i chunk_size r.1] }

/-- The body of the write task `[&, i, sz] { out.write(buf[i].data(), sz); }`. -/
def run_write (env : Env) (s : Locals) (t : Task) : Locals :=
  let data := (s.buf t.b).take t.sz
  let r := s.out.write env data
  { s with out := r.1, trace := s.trace ++ [Event.write data r.2] }

/-- `if (fut.valid()) { fut.wait(); }`. -/
def fut_wait (env : Env) (s : Locals) : Locals :=
  match s.fut with
  | none => s
  | some t =>
    let s1 := if t.ran then s else run_write env s t
    { s1 with fut := some { t with ran := true }, trace := s1.trace ++ [Event.wait] }

/-- `fut = std::async([&, i, sz] { out.write(buf[i].data(), sz); })`. -/
def fut_async (env : Env) (s : Locals) : Locals :=
  let t : Task := { b := s.i, sz := s.sz, ran := false }
  let s1 := { s with trace := s.trace ++ [Event.launch s.i s.sz], launched := s.launched + 1 }
  if env.eager s.launched then
    { run_write env s1 t with fut := some { t with ran := true } }
  else
    { s1 with fut := some t }

/-- The destructor of `fut` when the constructor is left: a task that has not run yet
runs now. -/
def fut_destroy (env : Env) (s : Locals) : Locals :=
  match s.fut with
  | none => s
  | some t => if t.ran then s else { run_write env s t with fut := some { t with ran := true } }

/-- The call of `index_region` on `buf[i]` for `idx_[1]` in the loop. -/
def scan_chunk (h : Helpers) (delim_ : List byte) (quote : byte) (s : Locals) : Locals :=
  let stop := usize (s.sz + 1)
  let off := to_size_t s.total_read
  let added := h.index_region s.self (s.buf s.i) delim_ quote s.first_nl stop off
  { s with
    self := { s.self with idx_1 := s.self.idx_1 ++ added },
    trace := s.trace ++ [Event.scan s.i 1 s.first_nl stop off] }

/-- One iteration of `while (sz > 0)`. -/
def loop_body (h : Helpers) (env : Env) (chunk_size : Nat) (delim_ : List byte) (quote : byte)
    (s : Locals) : Locals :=
  let s1 := scan_chunk h delim_ quote s
  let s2 := fut_wait env s1
  let s3 := fut_async env s2
  let s4 := { s3 with total_read := to_int (usize (to_size_t s3.total_read + s3.sz)) }
  let s5 := { s4 with i := (s4.i + 1) % 2 }
  let s6 := read_chunk chunk_size s5
  { s6 with first_nl := 0 }

/-- The loop `while (sz > 0)`, for at most `fuel` iterations. -/
def stream (h : Helpers) (env : Env) (chunk_size : Nat) (delim_ : List byte) (quote : byte) :
    Nat → Locals → Option Locals
  | 0, s => if 0 < s.sz then none else some s
  | fuel + 1, s =>
    if 0 < s.sz then stream h env chunk_size delim_ quote fuel (loop_body h env chunk_size delim_ quote s)
    else some s

/-- The state after the first read and the search for the first line, the delimiter
and the first newline. -/
structure Sniffed where
  s : Locals
  delim_ : List byte
  start : Nat

/-- The constructor up to the check for windows newlines. -/
def sniff (h : Helpers) (env : Env) (a : Args) : Sniffed :=
  let self0 : index_connection :=
    { has_header_ := a.has_header, quote_ := a.quote, trim_ws_ := a.trim_ws,
      escape_double_ := a.escape_double, escape_backslash_ := a.escape_backslash,
      comment_ := a.comment, skip_ := a.skip, progress_ := a.progress,
      delim_len_ := 0, windows_newlines_ := false, idx_0 := [], idx_1 := [],
      columns_ := 0, rows_ := 0, mmap_ := none }
  let s0 : Locals :=
    { self := self0, out := ofstream.create env, con := env.con,
      buf0 := List.replicate a.chunk_size 0, buf1 := List.replicate a.chunk_size 0,
      i := 0, sz := 0, first_nl := 0, total_read := 0, fut := none, launched := 0, trace := [] }
  let s1 := read_chunk a.chunk_size s0
  let start := h.find_first_line s1.self (s1.buf s1.i)
  let delim_ :=
    match a.delim with
    | none => [h.guess_delim s1.self (s1.buf s1.i) start]
    | some d => d
  let self2 := { s1.self with delim_len_ := delim_.length }
  let first_nl := h.find_next_newline self2 (s1.buf s1.i) start
  let win := decide (0 < first_nl) && decide ((s1.buf s1.i).getD (first_nl - 1) 0 = 13)
  { s := { s1 with self := { self2 with windows_newlines_ := win }, first_nl := first_nl },
    delim_ := delim_, start := start }

/-- The offsets `index_region` appends to `idx_[0]` when it scans the first row. -/
def first_row (h : Helpers) (a : Args) (x : Sniffed) : List Nat :=
  h.index_region { x.s.self with idx_0 := [usize (x.start + 2 ^ 64 - 1)] } (x.s.buf x.s.i)
    x.delim_ a.quote x.start (usize (x.s.first_nl + 1)) 0

/-- Indexing of the first row and the count of columns. -/
def index_first_row (h : Helpers) (a : Args) (x : Sniffed) : Locals :=
  let idx0 := [usize (x.start + 2 ^ 64 - 1)] ++ first_row h a x
  { x.s with
    self := { x.s.self with idx_0 := idx0, columns_ := usize (idx0.length + 2 ^ 64 - 1) },
    total_read := 0, fut := none,
    trace := x.s.trace ++ [Event.scan x.s.i 0 x.start (usize (x.s.first_nl + 1)) 0] }

/-- The value `total_size` of `std::accumulate(idx_.begin(), idx_.end(), 0, ..)`: the
accumulator is an `int`, the sum in the lambda a `size_t`. -/
def total_size (self : index_connection) : Int :=
  let acc1 := to_int (usize (to_size_t 0 + usize (self.idx_0.length + 2 ^ 64 - 1)))
  to_int (usize (to_size_t acc1 + usize (self.idx_1.length + 2 ^ 64 - 1)))

/-- The value of `rows_` after `rows_ = total_size / columns_; if (has_header_) --rows_;`
for a divisor that is not zero. -/
def count_rows (self : index_connection) : Nat :=
  let rows := to_size_t (total_size self) / self.columns_
  if self.has_header_ then usize (rows + 2 ^ 64 - 1) else rows

/-- The constructor from the test of the mapping error to its end: the exception, or
the division by `columns_`. -/
def settle (error : Nat) (file : Option (List byte)) (self : index_connection) :
    Outcome × index_connection :=
  if error ≠ 0 then (Outcome.threw error, self)
  else if self.columns_ = 0 then (Outcome.div_by_zero, { self with mmap_ := file })
  else (Outcome.returned, { self with mmap_ := file, rows_ := count_rows self })

/-- The constructor from `out.close()` to its end; the future `fut` is destroyed when
the constructor is left, by return or by exception. -/
def finish (env : Env) (s : Locals) : Run :=
  let s1 := { s with out := s.out.close, trace := s.trace ++ [Event.close] }
  let error := env.make_mmap_source s1.out.file
  let s2 := { s1 with trace := s1.trace ++ [Event.mmap] }
  let r := settle error s2.out.file s2.self
  let s3 := fut_destroy env s2
  { outcome := r.1, self := r.2, file := s3.out.file, con := s3.con, trace := s3.trace }

/-- The constructor `index_connection::index_connection`. -/
def construct (h : Helpers) (env : Env) (a : Args) : Option Run :=
  let x := sniff h env a
  (stream h env a.chunk_size x.delim_ a.quote (env.con.length + 1) (index_first_row h a x)).map
    (finish env)

/-! ## Observations on a trace -/

/-- The bytes handed to `out.write`, call by call. -/
def payloads (tr : List Event) : List (List byte) :=
  tr.filterMap fun e => match e with
    | Event.write data _ => some data
    | _ => none

/-- The sizes returned by the calls of `R_ReadConnection`, call by call. -/
def read_sizes (tr : List Event) : List Nat :=
  tr.filterMap fun e => match e with
    | Event.read _ _ sz => some sz
    | _ => none

/-- The buffers scanned for `idx_[1]`, one per iteration of the loop. -/
def chunk_bufs (tr : List Event) : List Nat :=
  tr.filterMap fun e => match e with
    | Event.scan b 1 _ _ _ => some b
    | _ => none

/-- The bytes of a write task that is started and has not run yet. -/
def pending (s : Locals) : List (List byte) :=
  match s.fut with
  | some t => if t.ran then [] else [(s.buf t.b).take t.sz]
  | none => []

/-- The chunk in `buf[i]`: its first `sz` bytes. -/
def Locals.chunk (s : Locals) : List byte := (s.buf s.i).take s.sz

/-- What is known about the write task along a trace: the buffer of the task that is
started and not yet waited for, whether a task was ever started while another one was
in flight, and whether a buffer was ever filled or scanned while the task in flight was
on it. -/
structure Monitor where
  in_flight : Option Nat
  one_at_a_time : Bool
  buffers_apart : Bool
deriving DecidableEq

/-- The effect of one event on the monitor. -/
def Monitor.step (m : Monitor) : Event → Monitor
  | Event.launch b _ =>
    { m with in_flight := some b, one_at_a_time := m.one_at_a_time && m.in_flight.isNone }
  | Event.wait => { m with in_flight := none }
  | Event.read b _ _ => { m with buffers_apart := m.buffers_apart && decide (m.in_flight ≠ some b) }
  | Event.scan b _ _ _ _ =>
    { m with buffers_apart := m.buffers_apart && decide (m.in_flight ≠ some b) }
  | _ => m

/-- The monitor after a trace. -/
def monitor (tr : List Event) : Monitor :=
  tr.foldl Monitor.step { in_flight := none, one_at_a_time := true, buffers_apart := true }

/-- The state of the monitor between two iterations: the task in flight is the one held
by `fut`, it is on the buffer other than `buf[i]`, and nothing went wrong so far. -/
def Settled (s : Locals) : Prop :=
  (monitor s.trace).in_flight = s.fut.map Task.b ∧ (monitor s.trace).one_at_a_time = true ∧
    (monitor s.trace).buffers_apart = true ∧ s.fut.map Task.b ≠ some s.i

/-- The state in which the loop is entered. -/
def entry (h : Helpers) (env : Env) (a : Args) : Locals := index_first_row h a (sniff h env a)

/-- The byte ranges handed to `index_region`, call by call: `(start, end)`. -/
def scan_ranges (tr : List Event) : List (Nat × Nat) :=
  tr.filterMap fun e => match e with
    | Event.scan _ _ start end_ _ => some (start, end_)
    | _ => none

/-- The events of a trace that come before `out.close()`. -/
def before_close (tr : List Event) : List Event :=
  tr.takeWhile fun e => decide (e ≠ Event.close)

/-- The stream is open and good and the file holds the bytes written so far. -/
def Flowing (s : Locals) : Prop :=
  s.out.is_open = true ∧ s.out.fail = false ∧ s.out.file = some (payloads s.trace).flatten

/-- The bookkeeping of the write tasks between two iterations: `launched` counts the
tasks started, and the task held by `fut` has run if and only if the schedule made it
run at its start. -/
def Counted (env : Env) (s : Locals) : Prop :=
  s.launched = (payloads s.trace).length + (pending s).length ∧
    ∀ t, s.fut = some t → t.ran = env.eager (s.launched - 1)

/-- The file offsets handed to `index_region` for `idx_[1]`, one per iteration of the
loop. -/
def chunk_offsets (tr : List Event) : List Nat :=
  tr.filterMap fun e => match e with
    | Event.scan _ 1 _ _ file_offset => some file_offset
    | _ => none

/-- The offsets as the description of the streaming states them, for comparison with
`chunk_offsets`: for chunks of the given sizes, the exact sum of the sizes of all earlier
chunks, starting from `acc` bytes before the first one. -/
def exact_offsets (acc : Nat) : List Nat → List Nat
  | [] => []
  | sz :: rest => acc :: exact_offsets (acc + sz) rest

/-- The calls of `index_region` that append to `idx_[0]`, call by call: the range
`(start, end)` and the file offset. -/
def header_scans (tr : List Event) : List (Nat × Nat × Nat) :=
  tr.filterMap fun e => match e with
    | Event.scan _ 0 start end_ file_offset => some (start, end_, file_offset)
    | _ => none

/-! ## A concrete instance of the helpers, for evaluating the constructor -/

/-- Modelled from the spec: `index_region` is declared outside `index_connection.cc`.
This scanner visits `n` positions from `pos` on and records `pos + file_offset` for
every delimiter or newline byte outside quotes (the RegionIndexer of the spec, without
escapes and comments); a position past the end of the source reads as the byte 0. -/
def scan_region (source : List byte) (delim quote : byte) (file_offset : Nat) :
    Nat → Nat → Bool → List Nat
  | 0, _, _ => []
  | n + 1, pos, in_quote =>
    if source.getD pos 0 = quote ∧ quote ≠ 0 then
      scan_region source delim quote file_offset n (pos + 1) (!in_quote)
    else if in_quote = false ∧ (source.getD pos 0 = delim ∨ source.getD pos 0 = 10) then
      usize (pos + file_offset) :: scan_region source delim quote file_offset n (pos + 1) in_quote
    else
      scan_region source delim quote file_offset n (pos + 1) in_quote

/-- Modelled from the spec: `find_next_newline` is declared outside
`index_connection.cc`.  The position of the first newline byte among `n` positions
from `pos` on, or the last position of the source when there is none. -/
def next_newline (source : List byte) : Nat → Nat → Nat
  | 0, _ => source.length - 1
  | n + 1, pos => if source.getD pos 0 = 10 then pos else next_newline source n (pos + 1)

/-- Modelled from the spec: the helpers declared outside `index_connection.cc`, for a
source without skipped or comment lines: the first line starts at 0, the guessed
delimiter is the comma, and fields end at delimiter and newline bytes. -/
def sample_helpers : Helpers where
  find_first_line := fun _ _ => 0
  guess_delim := fun _ _ _ => 44
  find_next_newline := fun _ source start => next_newline source (source.length - start) start
  index_region := fun _ source delim quote start end_ file_offset =>
    scan_region source (delim.getD 0 0) quote file_offset (end_ - start) start false

/-- The constructor arguments used in the examples: comma delimiter, double quote. -/
def sample_args (chunk_size : Nat) (has_header : Bool) : Args where
  delim := some [44]
  quote := 34
  trim_ws := true
  escape_double := true
  escape_backslash := false
  has_header := has_header
  skip := 0
  comment := 0
  chunk_size := chunk_size
  progress := false

/-- A world in which the file system works and mapping fails only for a missing file. -/
def sample_env (con : List (List byte)) (eager : Bool) : Env where
  con := con
  open_ok := true
  write_ok := fun _ => true
  make_mmap_source := fun f => if f.isSome then 0 else 2
  eager := fun _ => eager

/-- A world in which the stream accepts the first write only (the disk is full after
it); every write task runs as soon as it is started. -/
def full_disk_env (con : List (List byte)) : Env where
  con := con
  open_ok := true
  write_ok := fun k => decide (k < 1)
  make_mmap_source := fun f => if f.isSome then 0 else 2
  eager := fun _ => true

/-- A world in which the backing file cannot be created. -/
def no_file_env (con : List (List byte)) : Env where
  con := con
  open_ok := false
  write_ok := fun _ => true
  make_mmap_source := fun f => if f.isSome then 0 else 2
  eager := fun _ => true

/-- The run used as an instance of C3: the eight bytes `a,b` newline `1,2` newline in
one chunk, with a header. -/
def header_run : Run :=
  (construct sample_helpers (sample_env [[97, 44, 98, 10, 49, 44, 50, 10]] true)
    (sample_args 16 true)).get (by decide)

/-! ## The loop -/

theorem monitor_append (tr more : List Event) :
    monitor (tr ++ more) = more.foldl Monitor.step (monitor tr) := by
  simp [monitor, List.foldl_append]

theorem stream_zero_sz (h : Helpers) (env : Env) (n : Nat) (d : List byte) (q : byte)
    (fuel : Nat) (s : Locals) (hs : s.sz = 0) : stream h env n d q fuel s = some s := by
  cases fuel <;> simp [stream, hs]

theorem loop_body_i (h : Helpers) (env : Env) (n : Nat) (d : List byte) (q : byte) (s : Locals) :
    (loop_body h env n d q s).i = (s.i + 1) % 2 := by
  rcases hf : s.fut with _ | t
  · by_cases he : env.eager s.launched = true <;>
    simp [loop_body, read_chunk, fut_async, fut_wait, scan_chunk, run_write, Locals.set_buf, hf, he] <;>
    split <;> rfl
  · by_cases hr : t.ran = true <;> by_cases he : env.eager s.launched = true <;>
    simp [loop_body, read_chunk, fut_async, fut_wait, scan_chunk, run_write, Locals.set_buf, hf, he, hr] <;>
    split <;> rfl

theorem loop_body_self (h : Helpers) (env : Env) (n : Nat) (d : List byte) (q : byte) (s : Locals) :
    (loop_body h env n d q s).self.columns_ = s.self.columns_ ∧
    (loop_body h env n d q s).self.idx_0 = s.self.idx_0 := by
  rcases hf : s.fut with _ | t
  · by_cases he : env.eager s.launched = true <;>
    simp [loop_body, read_chunk, fut_async, fut_wait, scan_chunk, run_write, Locals.set_buf, hf, he] <;>
    split <;> simp
  · by_cases hr : t.ran = true <;> by_cases he : env.eager s.launched = true <;>
    simp [loop_body, read_chunk, fut_async, fut_wait, scan_chunk, run_write, Locals.set_buf, hf, he, hr] <;>
    split <;> simp

theorem loop_body_payloads (h : Helpers) (env : Env) (n : Nat) (d : List byte) (q : byte)
    (s : Locals) (hi : s.i < 2) :
    payloads (loop_body h env n d q s).trace ++ pending (loop_body h env n d q s) =
      payloads s.trace ++ pending s ++ [s.chunk] := by
  have hi2 : s.i = 0 ∨ s.i = 1 := by omega
  rcases hf : s.fut with _ | t
  · by_cases he : env.eager s.launched = true <;> rcases hi2 with h0 | h0 <;>
    simp [loop_body, read_chunk, fut_async, fut_wait, scan_chunk, run_write, Locals.set_buf, hf, he,
      payloads, pending, Locals.chunk, Locals.buf, h0, List.filterMap_append]
  · by_cases hr : t.ran = true <;> by_cases he : env.eager s.launched = true <;>
    rcases hi2 with h0 | h0 <;>
    simp [loop_body, read_chunk, fut_async, fut_wait, scan_chunk, run_write, Locals.set_buf, hf, he, hr,
      payloads, pending, Locals.chunk, Locals.buf, h0, List.filterMap_append]

theorem loop_body_read_nil (h : Helpers) (env : Env) (n : Nat) (d : List byte) (q : byte)
    (s : Locals) (hc : s.con = []) :
    (loop_body h env n d q s).sz = 0 ∧ (loop_body h env n d q s).con = [] := by
  rcases hf : s.fut with _ | t
  · by_cases he : env.eager s.launched = true <;>
    simp [loop_body, read_chunk, fut_async, fut_wait, scan_chunk, run_write, Locals.set_buf, hf, he,
      R_ReadConnection, hc]
  · by_cases hr : t.ran = true <;> by_cases he : env.eager s.launched = true <;>
    simp [loop_body, read_chunk, fut_async, fut_wait, scan_chunk, run_write, Locals.set_buf, hf, he, hr,
      R_ReadConnection, hc]

theorem loop_body_read_cons (h : Helpers) (env : Env) (n : Nat) (d : List byte) (q : byte)
    (s : Locals) (c : List byte) (rest : List (List byte)) (hc : s.con = c :: rest) :
    (loop_body h env n d q s).sz = (c.take n).length ∧ (loop_body h env n d q s).con = rest ∧
      (loop_body h env n d q s).chunk = c.take n := by
  rcases hf : s.fut with _ | t
  · by_cases he : env.eager s.launched = true <;>
    simp [loop_body, read_chunk, fut_async, fut_wait, scan_chunk, run_write, Locals.set_buf, hf, he,
      R_ReadConnection, hc, Locals.chunk, Locals.buf] <;>
    split <;> simp_all
  · by_cases hr : t.ran = true <;> by_cases he : env.eager s.launched = true <;>
    simp [loop_body, read_chunk, fut_async, fut_wait, scan_chunk, run_write, Locals.set_buf, hf, he, hr,
      R_ReadConnection, hc, Locals.chunk, Locals.buf] <;>
    split <;> simp_all

theorem loop_body_read_sizes (h : Helpers) (env : Env) (n : Nat) (d : List byte) (q : byte)
    (s : Locals) :
    read_sizes (loop_body h env n d q s).trace =
      read_sizes s.trace ++ [(loop_body h env n d q s).sz] := by
  rcases hf : s.fut with _ | t
  · by_cases he : env.eager s.launched = true <;>
    simp [loop_body, read_chunk, fut_async, fut_wait, scan_chunk, run_write, Locals.set_buf, hf, he,
      read_sizes, List.filterMap_append]
  · by_cases hr : t.ran = true <;> by_cases he : env.eager s.launched = true <;>
    simp [loop_body, read_chunk, fut_async, fut_wait, scan_chunk, run_write, Locals.set_buf, hf, he, hr,
      read_sizes, List.filterMap_append]

theorem loop_body_chunk_bufs (h : Helpers) (env : Env) (n : Nat) (d : List byte) (q : byte)
    (s : Locals) :
    chunk_bufs (loop_body h env n d q s).trace = chunk_bufs s.trace ++ [s.i] := by
  rcases hf : s.fut with _ | t
  · by_cases he : env.eager s.launched = true <;>
    simp [loop_body, read_chunk, fut_async, fut_wait, scan_chunk, run_write, Locals.set_buf, hf, he,
      chunk_bufs, List.filterMap_append]
  · by_cases hr : t.ran = true <;> by_cases he : env.eager s.launched = true <;>
    simp [loop_body, read_chunk, fut_async, fut_wait, scan_chunk, run_write, Locals.set_buf, hf, he, hr,
      chunk_bufs, List.filterMap_append]

theorem loop_body_settled (h : Helpers) (env : Env) (n : Nat) (d : List byte) (q : byte)
    (s : Locals) (hs : Settled s) : Settled (loop_body h env n d q s) := by
  obtain ⟨h1, h2, h3, h4⟩ := hs
  have hne : ¬ s.i = (s.i + 1) % 2 := by omega
  rcases hf : s.fut with _ | t
  · rw [hf] at h1 h4
    by_cases he : env.eager s.launched = true <;>
    simp [Settled, loop_body, read_chunk, fut_async, fut_wait, scan_chunk, run_write, Locals.set_buf,
      hf, he, monitor_append, Monitor.step, h1, h2, h3, hne] <;>
    split <;> simp [hne]
  · rw [hf] at h1 h4
    simp at h1 h4
    by_cases hr : t.ran = true <;> by_cases he : env.eager s.launched = true <;>
    simp [Settled, loop_body, read_chunk, fut_async, fut_wait, scan_chunk, run_write, Locals.set_buf,
      hf, he, hr, monitor_append, Monitor.step, h1, h2, h3, h4, hne] <;>
    split <;> simp [hne]

theorem stream_total (h : Helpers) (env : Env) (n : Nat) (d : List byte) (q : byte) :
    ∀ (fuel : Nat) (s : Locals), s.sz = 0 ∨ s.con.length < fuel →
      ∃ s', stream h env n d q fuel s = some s' := by
  intro fuel
  induction fuel with
  | zero =>
    intro s hs
    rcases hs with hs | hs
    · exact ⟨s, stream_zero_sz h env n d q 0 s hs⟩
    · omega
  | succ fuel ih =>
    intro s hs
    by_cases hz : 0 < s.sz
    · simp only [stream, hz, if_true]
      apply ih
      rcases hc : s.con with _ | ⟨c, rest⟩
      · exact Or.inl (loop_body_read_nil h env n d q s hc).1
      · right
        rw [(loop_body_read_cons h env n d q s c rest hc).2.1]
        rcases hs with hs | hs
        · omega
        · rw [hc] at hs
          simpa using hs
    · exact ⟨s, stream_zero_sz h env n d q _ s (by omega)⟩

theorem stream_inv (h : Helpers) (env : Env) (n : Nat) (d : List byte) (q : byte)
    (P : Locals → Prop) (hP : ∀ s, P s → 0 < s.sz → P (loop_body h env n d q s)) :
    ∀ (fuel : Nat) (s s' : Locals), P s → stream h env n d q fuel s = some s' →
      P s' ∧ s'.sz = 0 := by
  intro fuel
  induction fuel with
  | zero =>
    intro s s' hs hrun
    by_cases hz : 0 < s.sz
    · simp [stream, hz] at hrun
    · simp only [stream, hz, if_false, Option.some.injEq] at hrun
      subst hrun
      exact ⟨hs, by omega⟩
  | succ fuel ih =>
    intro s s' hs hrun
    by_cases hz : 0 < s.sz
    · simp only [stream, hz, if_true] at hrun
      exact ih _ _ (hP s hs hz) hrun
    · simp only [stream, hz, if_false, Option.some.injEq] at hrun
      subst hrun
      exact ⟨hs, by omega⟩

/-! ## Before and after the loop -/

theorem entry_con_length (h : Helpers) (env : Env) (a : Args) :
    (entry h env a).con.length < env.con.length + 1 := by
  rcases hc : env.con with _ | ⟨c, rest⟩ <;>
  simp [entry, index_first_row, sniff, read_chunk, R_ReadConnection, Locals.set_buf, Locals.buf, hc]
  omega

theorem construct_eq (h : Helpers) (env : Env) (a : Args) :
    ∃ s', stream h env a.chunk_size (sniff h env a).delim_ a.quote (env.con.length + 1)
        (entry h env a) = some s' ∧ construct h env a = some (finish env s') := by
  obtain ⟨s', hs'⟩ := stream_total h env a.chunk_size (sniff h env a).delim_ a.quote
    (env.con.length + 1) (entry h env a) (Or.inr (entry_con_length h env a))
  refine ⟨s', hs', ?_⟩
  unfold construct
  unfold entry at hs'
  simp only [hs', Option.map_some']

theorem entry_i (h : Helpers) (env : Env) (a : Args) : (entry h env a).i = 0 := by
  simp [entry, index_first_row, sniff, read_chunk, Locals.set_buf]

theorem entry_fut (h : Helpers) (env : Env) (a : Args) : (entry h env a).fut = none := by
  simp [entry, index_first_row]

theorem entry_idx_0 (h : Helpers) (env : Env) (a : Args) :
    (entry h env a).self.idx_0 =
      usize ((sniff h env a).start + 2 ^ 64 - 1) :: first_row h a (sniff h env a) := rfl

theorem entry_columns (h : Helpers) (env : Env) (a : Args) :
    (entry h env a).self.columns_ =
      usize ((first_row h a (sniff h env a)).length + 1 + 2 ^ 64 - 1) := rfl

theorem entry_settled (h : Helpers) (env : Env) (a : Args) : Settled (entry h env a) := by
  simp [Settled, entry, index_first_row, sniff, read_chunk, Locals.set_buf, monitor, Monitor.step]

theorem entry_trace (h : Helpers) (env : Env) (a : Args) :
    payloads (entry h env a).trace = [] ∧ pending (entry h env a) = [] ∧
      chunk_bufs (entry h env a).trace = [] ∧
      read_sizes (entry h env a).trace = [(entry h env a).sz] := by
  simp [entry, index_first_row, sniff, read_chunk, Locals.set_buf, payloads, pending, chunk_bufs,
    read_sizes]

theorem finish_trace (env : Env) (s : Locals) :
    payloads (finish env s).trace = payloads s.trace ++ pending s ∧
      read_sizes (finish env s).trace = read_sizes s.trace ∧
      chunk_bufs (finish env s).trace = chunk_bufs s.trace ∧
      (monitor (finish env s).trace).one_at_a_time = (monitor s.trace).one_at_a_time ∧
      (monitor (finish env s).trace).buffers_apart = (monitor s.trace).buffers_apart := by
  rcases hf : s.fut with _ | t
  · simp [finish, fut_destroy, hf, payloads, pending, read_sizes, chunk_bufs, monitor_append,
      Monitor.step, List.filterMap_append]
  · by_cases hr : t.ran = true <;>
    simp [finish, fut_destroy, hf, hr, payloads, pending, read_sizes, chunk_bufs, monitor_append,
      Monitor.step, List.filterMap_append, run_write, Locals.buf]

theorem settle_self (error : Nat) (file : Option (List byte)) (self : index_connection) :
    (settle error file self).2.columns_ = self.columns_ ∧
      (settle error file self).2.idx_0 = self.idx_0 ∧
      (settle error file self).2.idx_1 = self.idx_1 ∧
      (settle error file self).2.has_header_ = self.has_header_ := by
  unfold settle
  split_ifs <;> simp

theorem finish_self (env : Env) (s : Locals) :
    (finish env s).self.columns_ = s.self.columns_ ∧ (finish env s).self.idx_0 = s.self.idx_0 ∧
      (finish env s).self.idx_1 = s.self.idx_1 ∧
      (finish env s).self.has_header_ = s.self.has_header_ :=
  settle_self _ _ s.self

theorem finish_con (env : Env) (s : Locals) : (finish env s).con = s.con := by
  rcases hf : s.fut with _ | t
  · simp [finish, fut_destroy, hf]
  · by_cases hr : t.ran = true <;> simp [finish, fut_destroy, hf, hr, run_write]


theorem loop_body_has_header (h : Helpers) (env : Env) (n : Nat) (d : List byte) (q : byte)
    (s : Locals) : (loop_body h env n d q s).self.has_header_ = s.self.has_header_ := by
  rcases hf : s.fut with _ | t
  · by_cases he : env.eager s.launched = true <;>
    simp [loop_body, read_chunk, fut_async, fut_wait, scan_chunk, run_write, Locals.set_buf, hf, he] <;>
    split <;> simp
  · by_cases hr : t.ran = true <;> by_cases he : env.eager s.launched = true <;>
    simp [loop_body, read_chunk, fut_async, fut_wait, scan_chunk, run_write, Locals.set_buf, hf, he, hr] <;>
    split <;> simp

theorem ofstream_write_none (env : Env) (o : ofstream) (data : List byte) (ho : o.file = none) :
    (o.write env data).1.file = none := by
  unfold ofstream.write
  split <;> simp [ho]

theorem loop_body_file_none (h : Helpers) (env : Env) (n : Nat) (d : List byte) (q : byte)
    (s : Locals) (ho : s.out.file = none) : (loop_body h env n d q s).out.file = none := by
  rcases hf : s.fut with _ | t
  · by_cases he : env.eager s.launched = true <;>
    simp [loop_body, read_chunk, fut_async, fut_wait, scan_chunk, run_write, Locals.set_buf, hf, he,
      ho, ofstream_write_none] <;>
    split <;> simp [ho, ofstream_write_none]
  · by_cases hr : t.ran = true <;> by_cases he : env.eager s.launched = true <;>
    simp [loop_body, read_chunk, fut_async, fut_wait, scan_chunk, run_write, Locals.set_buf, hf, he, hr,
      ho, ofstream_write_none] <;>
    split <;> simp [ho, ofstream_write_none]

theorem entry_read_cons (h : Helpers) (env : Env) (a : Args) (c : List byte)
    (rest : List (List byte)) (hc : env.con = c :: rest) :
    (entry h env a).sz = (c.take a.chunk_size).length ∧ (entry h env a).con = rest ∧
      (entry h env a).chunk = c.take a.chunk_size := by
  simp [entry, index_first_row, sniff, read_chunk, R_ReadConnection, Locals.set_buf, Locals.buf,
    Locals.chunk, hc]

theorem entry_has_header (h : Helpers) (env : Env) (a : Args) :
    (entry h env a).self.has_header_ = a.has_header := by
  simp [entry, index_first_row, sniff, read_chunk, Locals.set_buf]

theorem entry_file_none (h : Helpers) (env : Env) (a : Args) (ho : env.open_ok = false) :
    (entry h env a).out.file = none := by
  simp [entry, index_first_row, sniff, read_chunk, Locals.set_buf, ofstream.create, ho]

theorem stream_blocks (h : Helpers) (env : Env) (n : Nat) (d : List byte) (q : byte) :
    ∀ (bs : List (List byte)) (fuel : Nat) (s : Locals) (rest : List (List byte)),
      (∀ b ∈ bs, b ≠ [] ∧ b.length ≤ n) → s.i < 2 → 0 < s.sz → s.con = bs ++ [] :: rest →
      bs.length < fuel →
      ∃ s', stream h env n d q fuel s = some s' ∧ s'.con = rest ∧
        payloads s'.trace ++ pending s' = payloads s.trace ++ pending s ++ s.chunk :: bs ∧
        read_sizes s'.trace = read_sizes s.trace ++ bs.map List.length ++ [0] := by
  intro bs
  induction bs with
  | nil =>
    intro fuel s rest _ hi hz hc hfuel
    obtain ⟨f, rfl⟩ : ∃ f, fuel = f + 1 := ⟨fuel - 1, by simp at hfuel; omega⟩
    have hb := loop_body_read_cons h env n d q s [] rest (by simpa using hc)
    refine ⟨loop_body h env n d q s, ?_, hb.2.1, ?_, ?_⟩
    · simp only [stream, hz, if_true]
      exact stream_zero_sz h env n d q f _ (by simpa using hb.1)
    · exact loop_body_payloads h env n d q s hi
    · rw [loop_body_read_sizes, hb.1]
      simp
  | cons b bs ih =>
    intro fuel s rest hbs hi hz hc hfuel
    obtain ⟨f, rfl⟩ : ∃ f, fuel = f + 1 := ⟨fuel - 1, by simp at hfuel; omega⟩
    have hb := loop_body_read_cons h env n d q s b (bs ++ [] :: rest) (by simpa using hc)
    have hbb := hbs b (List.mem_cons_self _ _)
    have htake : b.take n = b := List.take_of_length_le hbb.2
    rw [htake] at hb
    have hpos : 0 < b.length := List.length_pos.mpr hbb.1
    obtain ⟨s', hs', hcon, hpay, hread⟩ := ih f (loop_body h env n d q s) rest
      (fun x hx => hbs x (List.mem_cons_of_mem _ hx))
      (by rw [loop_body_i]; omega) (by rw [hb.1]; exact hpos) hb.2.1
      (by simp at hfuel; omega)
    refine ⟨s', ?_, hcon, ?_, ?_⟩
    · simp only [stream, hz, if_true]
      exact hs'
    · rw [hpay, loop_body_payloads h env n d q s hi, hb.2.2]
      simp
    · rw [hread, loop_body_read_sizes, hb.1]
      simp

/-! ## The row count -/

theorem to_int_small (n : Nat) (hn : n < 2 ^ 31) : to_int n = (n : Int) := by
  unfold to_int
  have h1 : n % 2 ^ 32 = n := Nat.mod_eq_of_lt (by omega)
  rw [h1, if_pos hn]

theorem to_size_t_cast (n : Nat) (hn : n < 2 ^ 64) : to_size_t (n : Int) = n := by
  unfold to_size_t
  omega

theorem total_size_exact (self : index_connection) (h0 : 1 ≤ self.idx_0.length)
    (h1 : 1 ≤ self.idx_1.length)
    (hs : self.idx_0.length - 1 + (self.idx_1.length - 1) < 2 ^ 31) :
    total_size self = ((self.idx_0.length - 1 + (self.idx_1.length - 1) : Nat) : Int) := by
  have e0 : usize (to_size_t 0 + usize (self.idx_0.length + 2 ^ 64 - 1)) = self.idx_0.length - 1 := by
    have : to_size_t 0 = 0 := by decide
    rw [this]
    unfold usize
    omega
  have e1 : usize (self.idx_0.length - 1 + usize (self.idx_1.length + 2 ^ 64 - 1)) =
      self.idx_0.length - 1 + (self.idx_1.length - 1) := by
    unfold usize
    omega
  unfold total_size
  simp only []
  rw [e0, to_int_small (self.idx_0.length - 1) (by omega),
    to_size_t_cast (self.idx_0.length - 1) (by omega), e1, to_int_small _ hs]

theorem count_rows_exact (self : index_connection) (h0 : 1 ≤ self.idx_0.length)
    (h1 : 1 ≤ self.idx_1.length)
    (hs : self.idx_0.length - 1 + (self.idx_1.length - 1) < 2 ^ 31)
    (hc : self.columns_ ≠ 0)
    (hh : self.has_header_ = true →
      self.columns_ ≤ self.idx_0.length - 1 + (self.idx_1.length - 1)) :
    count_rows self = (self.idx_0.length - 1 + (self.idx_1.length - 1)) / self.columns_ -
      (if self.has_header_ then 1 else 0) := by
  unfold count_rows
  simp only []
  rw [total_size_exact self h0 h1 hs, to_size_t_cast _ (by omega)]
  have hle : (self.idx_0.length - 1 + (self.idx_1.length - 1)) / self.columns_ ≤
      self.idx_0.length - 1 + (self.idx_1.length - 1) := Nat.div_le_self _ _
  by_cases hd : self.has_header_ = true
  · have hpos : 0 < (self.idx_0.length - 1 + (self.idx_1.length - 1)) / self.columns_ :=
      Nat.div_pos (hh hd) (Nat.pos_of_ne_zero hc)
    simp only [hd, if_true]
    unfold usize
    omega
  · simp [hd]

theorem settle_returned (error : Nat) (file : Option (List byte)) (self : index_connection)
    (hret : (settle error file self).1 = Outcome.returned) :
    self.columns_ ≠ 0 ∧ (settle error file self).2.rows_ = count_rows self := by
  unfold settle at hret ⊢
  split_ifs at hret ⊢
  simp_all

/-! ## The backing file -/

theorem loop_body_flowing (h : Helpers) (env : Env) (n : Nat) (d : List byte) (q : byte)
    (s : Locals) (hw : ∀ k, env.write_ok k = true) (hs : Flowing s) :
    Flowing (loop_body h env n d q s) := by
  obtain ⟨h1, h2, h3⟩ := hs
  rcases hf : s.fut with _ | t
  · by_cases he : env.eager s.launched = true <;>
    simp [Flowing, loop_body, read_chunk, fut_async, fut_wait, scan_chunk, run_write,
      Locals.set_buf, hf, he, ofstream.write, hw, h1, h2, h3, payloads, List.filterMap_append] <;>
    split <;> simp [h1, h2, h3, payloads]
  · by_cases hr : t.ran = true <;> by_cases he : env.eager s.launched = true <;>
    simp [Flowing, loop_body, read_chunk, fut_async, fut_wait, scan_chunk, run_write,
      Locals.set_buf, hf, he, hr, ofstream.write, hw, h1, h2, h3, payloads,
      List.filterMap_append] <;>
    split <;> simp [h1, h2, h3, payloads]

theorem loop_body_launched (h : Helpers) (env : Env) (n : Nat) (d : List byte) (q : byte)
    (s : Locals) :
    (loop_body h env n d q s).launched = s.launched + 1 ∧
      ∀ t, (loop_body h env n d q s).fut = some t → t.ran = env.eager s.launched := by
  rcases hf : s.fut with _ | t
  · by_cases he : env.eager s.launched = true <;>
    simp [loop_body, read_chunk, fut_async, fut_wait, scan_chunk, run_write, Locals.set_buf, hf, he] <;>
    split <;> simp [he]
  · by_cases hr : t.ran = true <;> by_cases he : env.eager s.launched = true <;>
    simp [loop_body, read_chunk, fut_async, fut_wait, scan_chunk, run_write, Locals.set_buf, hf, he, hr] <;>
    split <;> simp [he]

theorem loop_body_counted (h : Helpers) (env : Env) (n : Nat) (d : List byte) (q : byte)
    (s : Locals) (hi : s.i < 2) (hs : Counted env s) : Counted env (loop_body h env n d q s) := by
  have hl := loop_body_launched h env n d q s
  have hp := congrArg List.length (loop_body_payloads h env n d q s hi)
  simp only [List.length_append, List.length_singleton] at hp
  refine ⟨?_, ?_⟩
  · rw [hl.1, hs.1]
    omega
  · intro t ht
    rw [hl.1, hl.2 t ht]
    simp

theorem entry_flowing (h : Helpers) (env : Env) (a : Args) (ho : env.open_ok = true) :
    Flowing (entry h env a) := by
  simp [Flowing, entry, index_first_row, sniff, read_chunk, Locals.set_buf, ofstream.create, ho,
    payloads]

theorem entry_counted (h : Helpers) (env : Env) (a : Args) : Counted env (entry h env a) := by
  simp [Counted, entry, index_first_row, sniff, read_chunk, Locals.set_buf, payloads, pending]

theorem finish_file (env : Env) (s : Locals) (hs : Flowing s) :
    (finish env s).file = some (payloads s.trace).flatten := by
  obtain ⟨h1, h2, h3⟩ := hs
  rcases hf : s.fut with _ | t
  · simp [finish, fut_destroy, hf, ofstream.close, h1, h3]
  · by_cases hr : t.ran = true <;>
    simp [finish, fut_destroy, hf, hr, ofstream.close, h1, h3, run_write, ofstream.write]

/-! ## The trace up to `out.close()` -/

theorem loop_body_trace (h : Helpers) (env : Env) (n : Nat) (d : List byte) (q : byte)
    (s : Locals) :
    (∀ e ∈ s.trace, e ∈ (loop_body h env n d q s).trace) ∧
      (Event.close ∈ (loop_body h env n d q s).trace → Event.close ∈ s.trace) ∧
      Event.scan s.i 1 s.first_nl (usize (s.sz + 1)) (to_size_t s.total_read) ∈
        (loop_body h env n d q s).trace ∧
      (loop_body h env n d q s).fut ≠ none := by
  rcases hf : s.fut with _ | t
  · by_cases he : env.eager s.launched = true <;>
    simp [loop_body, read_chunk, fut_async, fut_wait, scan_chunk, run_write, Locals.set_buf, hf, he] <;>
    split <;> simp <;> intro e he <;> exact Or.inl he
  · by_cases hr : t.ran = true <;> by_cases he : env.eager s.launched = true <;>
    simp [loop_body, read_chunk, fut_async, fut_wait, scan_chunk, run_write, Locals.set_buf, hf, he, hr] <;>
    split <;> simp <;> intro e he <;> exact Or.inl he

theorem before_close_append (tr tail : List Event) (hno : Event.close ∉ tr) :
    before_close (tr ++ Event.close :: tail) = tr := by
  induction tr with
  | nil => simp [before_close]
  | cons e tr ih =>
    have he : e ≠ Event.close := fun hc => hno (by simp [hc])
    have ht : Event.close ∉ tr := fun hc => hno (List.mem_cons_of_mem _ hc)
    have := ih ht
    simpa [before_close, List.takeWhile, he] using this

theorem finish_trace_shape (env : Env) (s : Locals) :
    ∃ tail, (finish env s).trace = s.trace ++ Event.close :: tail := by
  rcases hf : s.fut with _ | t
  · exact ⟨[Event.mmap], by simp [finish, fut_destroy, hf]⟩
  · by_cases hr : t.ran = true
    · exact ⟨[Event.mmap], by simp [finish, fut_destroy, hf, hr]⟩
    · exact ⟨[Event.mmap, Event.write ((s.buf t.b).take t.sz)
        ((s.out.close.write env ((s.buf t.b).take t.sz)).2)],
        by simp [finish, fut_destroy, hf, hr, run_write, Locals.buf]⟩

theorem entry_no_close (h : Helpers) (env : Env) (a : Args) :
    Event.close ∉ (entry h env a).trace := by
  simp [entry, index_first_row, sniff, read_chunk, Locals.set_buf]

theorem stream_succ (h : Helpers) (env : Env) (n : Nat) (d : List byte) (q : byte)
    (fuel : Nat) (s : Locals) (hz : 0 < s.sz) :
    stream h env n d q (fuel + 1) s = stream h env n d q fuel (loop_body h env n d q s) := by
  simp only [stream, hz, if_true]

/-- With at least one non-empty chunk, the write task of the last chunk is in flight when
`out.close()` is called: it was started and no `fut.wait()` came after. -/
theorem write_in_flight_at_close (h : Helpers) (env : Env) (a : Args) (c : List byte)
    (rest : List (List byte)) (hc : env.con = c :: rest) (hne : c.take a.chunk_size ≠ []) :
    ∃ r, construct h env a = some r ∧ (monitor (before_close r.trace)).in_flight ≠ none := by
  obtain ⟨s', hs', hr⟩ := construct_eq h env a
  have hz : 0 < (entry h env a).sz := by
    rw [(entry_read_cons h env a c rest hc).1]
    exact List.length_pos.mpr hne
  rw [stream_succ _ _ _ _ _ _ _ hz] at hs'
  have hb := loop_body_trace h env a.chunk_size (sniff h env a).delim_ a.quote (entry h env a)
  have hinv := stream_inv h env a.chunk_size (sniff h env a).delim_ a.quote
    (fun s => Settled s ∧ Event.close ∉ s.trace ∧ s.fut ≠ none)
    (fun s hs _ => by
      have hb2 := loop_body_trace h env a.chunk_size (sniff h env a).delim_ a.quote s
      exact ⟨loop_body_settled h env a.chunk_size (sniff h env a).delim_ a.quote s hs.1,
        fun hcl => hs.2.1 (hb2.2.1 hcl), hb2.2.2.2⟩)
    _ _ _ ⟨loop_body_settled h env a.chunk_size (sniff h env a).delim_ a.quote _
        (entry_settled h env a),
      fun hcl => entry_no_close h env a (hb.2.1 hcl), hb.2.2.2⟩ hs'
  obtain ⟨tail, htail⟩ := finish_trace_shape env s'
  refine ⟨finish env s', hr, ?_⟩
  rw [htail, before_close_append _ _ hinv.1.2.1, hinv.1.1.1]
  rcases hf : s'.fut with _ | t
  · exact absurd hf hinv.1.2.2
  · simp

/-- When the scan of the first row appends no offset, `columns_` is 0 and the constructor
never returns: it throws only if the mapping fails, and divides by `columns_` otherwise. -/
theorem zero_columns_not_checked (h : Helpers) (env : Env) (a : Args)
    (hrow : first_row h a (sniff h env a) = []) :
    ∃ r, construct h env a = some r ∧ r.self.columns_ = 0 ∧ r.outcome ≠ Outcome.returned ∧
      ((∀ f, env.make_mmap_source f = 0) → r.outcome = Outcome.div_by_zero) := by
  obtain ⟨s', hs', hr⟩ := construct_eq h env a
  have hinv := stream_inv h env a.chunk_size (sniff h env a).delim_ a.quote
    (fun s => s.self.columns_ = (entry h env a).self.columns_)
    (fun s hs _ =>
      (loop_body_self h env a.chunk_size (sniff h env a).delim_ a.quote s).1.trans hs)
    _ _ _ rfl hs'
  have hcol : s'.self.columns_ = 0 := by
    rw [hinv.1, entry_columns, hrow]
    decide
  have hout : (finish env s').outcome =
      (settle (env.make_mmap_source s'.out.close.file) s'.out.close.file s'.self).1 := rfl
  refine ⟨finish env s', hr, (finish_self env s').1.trans hcol, ?_, ?_⟩
  · rw [hout]
    unfold settle
    split_ifs <;> simp
  · intro hmap
    rw [hout]
    unfold settle
    simp [hmap, hcol]

/-- A read that fills the buffer makes the chunk scan end at `chunk_size + 1`, one past
the `chunk_size` bytes of the buffer. -/
theorem full_read_scans_past_buffer (h : Helpers) (env : Env) (a : Args) (c : List byte)
    (rest : List (List byte)) (hc : env.con = c :: rest) (hpos : 0 < a.chunk_size)
    (hfull : a.chunk_size ≤ c.length) (hsize : a.chunk_size + 1 < 2 ^ 64) :
    ∃ r, construct h env a = some r ∧
      ((sniff h env a).s.first_nl, a.chunk_size + 1) ∈ scan_ranges r.trace := by
  obtain ⟨s', hs', hr⟩ := construct_eq h env a
  have hsz : (entry h env a).sz = a.chunk_size := by
    rw [(entry_read_cons h env a c rest hc).1, List.length_take]
    omega
  rw [stream_succ _ _ _ _ _ _ _ (by rw [hsz]; exact hpos)] at hs'
  have hb := loop_body_trace h env a.chunk_size (sniff h env a).delim_ a.quote (entry h env a)
  have hev : Event.scan 0 1 (sniff h env a).s.first_nl (a.chunk_size + 1) 0 ∈
      (loop_body h env a.chunk_size (sniff h env a).delim_ a.quote (entry h env a)).trace := by
    have h3 := hb.2.2.1
    rw [entry_i, hsz] at h3
    have e1 : usize (a.chunk_size + 1) = a.chunk_size + 1 := Nat.mod_eq_of_lt hsize
    have e2 : (entry h env a).first_nl = (sniff h env a).s.first_nl := rfl
    have e3 : to_size_t (entry h env a).total_read = 0 := by
      have : (entry h env a).total_read = 0 := rfl
      rw [this]
      decide
    rw [e1, e2, e3] at h3
    exact h3
  have hinv := stream_inv h env a.chunk_size (sniff h env a).delim_ a.quote
    (fun s => Event.scan 0 1 (sniff h env a).s.first_nl (a.chunk_size + 1) 0 ∈ s.trace)
    (fun s hs _ =>
      (loop_body_trace h env a.chunk_size (sniff h env a).delim_ a.quote s).1 _ hs)
    _ _ _ hev hs'
  obtain ⟨tail, htail⟩ := finish_trace_shape env s'
  refine ⟨finish env s', hr, ?_⟩
  unfold scan_ranges
  rw [List.mem_filterMap]
  exact ⟨_, by rw [htail]; exact List.mem_append_left _ hinv.1, rfl⟩

/-! ## The file offset `total_read` -/

theorem to_int_step (t sz : Nat) :
    to_int (usize (to_size_t (to_int t) + sz)) = to_int (t + sz) := by
  unfold to_int usize to_size_t
  split_ifs <;> omega

theorem loop_body_total_read (h : Helpers) (env : Env) (n : Nat) (d : List byte) (q : byte)
    (s : Locals) :
    (loop_body h env n d q s).total_read = to_int (usize (to_size_t s.total_read + s.sz)) ∧
      chunk_offsets (loop_body h env n d q s).trace =
        chunk_offsets s.trace ++ [to_size_t s.total_read] := by
  rcases hf : s.fut with _ | t
  · by_cases he : env.eager s.launched = true <;>
    simp [loop_body, read_chunk, fut_async, fut_wait, scan_chunk, run_write, Locals.set_buf, hf, he,
      chunk_offsets, List.filterMap_append] <;>
    split <;> simp
  · by_cases hr : t.ran = true <;> by_cases he : env.eager s.launched = true <;>
    simp [loop_body, read_chunk, fut_async, fut_wait, scan_chunk, run_write, Locals.set_buf, hf, he, hr,
      chunk_offsets, List.filterMap_append] <;>
    split <;> simp

theorem stream_offsets (h : Helpers) (env : Env) (n : Nat) (d : List byte) (q : byte) :
    ∀ (bs : List (List byte)) (fuel : Nat) (s : Locals) (rest : List (List byte)) (t : Nat),
      (∀ b ∈ bs, b ≠ [] ∧ b.length ≤ n) → 0 < s.sz → s.con = bs ++ [] :: rest →
      bs.length < fuel → s.total_read = to_int t →
      ∃ s', stream h env n d q fuel s = some s' ∧
        chunk_offsets s'.trace = chunk_offsets s.trace ++
          (exact_offsets t (s.sz :: bs.map List.length)).map (fun x => to_size_t (to_int x)) := by
  intro bs
  induction bs with
  | nil =>
    intro fuel s rest t _ hz hc hfuel ht
    obtain ⟨f, rfl⟩ : ∃ f, fuel = f + 1 := ⟨fuel - 1, by simp at hfuel; omega⟩
    have hb := loop_body_read_cons h env n d q s [] rest (by simpa using hc)
    refine ⟨loop_body h env n d q s, ?_, ?_⟩
    · rw [stream_succ _ _ _ _ _ _ _ hz]
      exact stream_zero_sz h env n d q f _ (by simpa using hb.1)
    · rw [(loop_body_total_read h env n d q s).2, ht]
      rfl
  | cons b bs ih =>
    intro fuel s rest t hbs hz hc hfuel ht
    obtain ⟨f, rfl⟩ : ∃ f, fuel = f + 1 := ⟨fuel - 1, by simp at hfuel; omega⟩
    have hb := loop_body_read_cons h env n d q s b (bs ++ [] :: rest) (by simpa using hc)
    have hbb := hbs b (List.mem_cons_self _ _)
    rw [List.take_of_length_le hbb.2] at hb
    have htr := loop_body_total_read h env n d q s
    obtain ⟨s', hs', hoff⟩ := ih f (loop_body h env n d q s) rest (t + s.sz)
      (fun x hx => hbs x (List.mem_cons_of_mem _ hx))
      (by rw [hb.1]; exact List.length_pos.mpr hbb.1) hb.2.1 (by simp at hfuel; omega)
      (by rw [htr.1, ht, to_int_step])
    refine ⟨s', ?_, ?_⟩
    · rw [stream_succ _ _ _ _ _ _ _ hz]
      exact hs'
    · rw [hoff, htr.2, ht, hb.1]
      simp [exact_offsets]

theorem finish_chunk_offsets (env : Env) (s : Locals) :
    chunk_offsets (finish env s).trace = chunk_offsets s.trace := by
  rcases hf : s.fut with _ | t
  · simp [finish, fut_destroy, hf, chunk_offsets, List.filterMap_append]
  · by_cases hr : t.ran = true <;>
    simp [finish, fut_destroy, hf, hr, chunk_offsets, List.filterMap_append, run_write]

theorem entry_offsets (h : Helpers) (env : Env) (a : Args) :
    chunk_offsets (entry h env a).trace = [] ∧ (entry h env a).total_read = to_int 0 := by
  constructor
  · simp [entry, index_first_row, sniff, read_chunk, Locals.set_buf, chunk_offsets]
  · rfl

/-- The file offsets the constructor hands to `index_region`: for every chunk the sum of
the sizes of the earlier chunks, taken through the `int` variable `total_read` and
converted back to `size_t`. -/
theorem construct_offsets (h : Helpers) (env : Env) (a : Args)
    (bs rest : List (List byte)) (hcon : env.con = bs ++ [] :: rest)
    (hbs : ∀ b ∈ bs, b ≠ [] ∧ b.length ≤ a.chunk_size) :
    ∃ r, construct h env a = some r ∧
      chunk_offsets r.trace =
        (exact_offsets 0 (bs.map List.length)).map (fun x => to_size_t (to_int x)) := by
  obtain ⟨s', hs', hr⟩ := construct_eq h env a
  have heo := entry_offsets h env a
  refine ⟨finish env s', hr, ?_⟩
  rw [finish_chunk_offsets]
  rcases bs with _ | ⟨b, bs⟩
  · have he := entry_read_cons h env a [] rest (by simpa using hcon)
    have hz : (entry h env a).sz = 0 := by simpa using he.1
    rw [stream_zero_sz _ _ _ _ _ _ _ hz] at hs'
    cases hs'
    rw [heo.1]
    rfl
  · have he := entry_read_cons h env a b (bs ++ [] :: rest) (by simpa using hcon)
    have hbb := hbs b (List.mem_cons_self _ _)
    rw [List.take_of_length_le hbb.2] at he
    obtain ⟨s2, hs2, hoff⟩ := stream_offsets h env a.chunk_size
      (sniff h env a).delim_ a.quote bs (env.con.length + 1) (entry h env a) rest 0
      (fun x hx => hbs x (List.mem_cons_of_mem _ hx))
      (by rw [he.1]; exact List.length_pos.mpr hbb.1) he.2.1
      (by rw [hcon]; simp; omega) heo.2
    have hsame : s2 = s' := Option.some.inj (hs2.symm.trans hs')
    rw [hsame] at hoff
    rw [hoff, heo.1, he.1]
    rfl

theorem exact_offsets_le (l : List Nat) :
    ∀ (acc : Nat), ∀ x ∈ exact_offsets acc l, x ≤ acc + l.sum := by
  induction l with
  | nil => intro acc x hx; simp [exact_offsets] at hx
  | cons sz l ih =>
    intro acc x hx
    simp only [exact_offsets, List.mem_cons] at hx
    rcases hx with rfl | hx
    · omega
    · have := ih (acc + sz) x hx
      simp only [List.sum_cons]
      omega

/-- Below `2 ^ 31` bytes in all, the file offset of every chunk is the exact sum of the
sizes of the earlier chunks. -/
theorem offsets_exact_below_int_max (h : Helpers) (env : Env) (a : Args)
    (bs rest : List (List byte)) (hcon : env.con = bs ++ [] :: rest)
    (hbs : ∀ b ∈ bs, b ≠ [] ∧ b.length ≤ a.chunk_size)
    (hsum : (bs.map List.length).sum < 2 ^ 31) :
    ∃ r, construct h env a = some r ∧
      chunk_offsets r.trace = exact_offsets 0 (bs.map List.length) := by
  obtain ⟨r, hr, hoff⟩ := construct_offsets h env a bs rest hcon hbs
  refine ⟨r, hr, ?_⟩
  rw [hoff]
  conv_rhs => rw [← List.map_id (exact_offsets 0 (bs.map List.length))]
  apply List.map_congr_left
  intro x hx
  have hle := exact_offsets_le _ 0 x hx
  rw [to_int_small x (by omega), to_size_t_cast x (by omega)]
  rfl

/-! ## What reaches the backing file -/

/-- What the constructor hands to `out.write`: when the successive reads of the connection return the non-empty blocks `bs`,
each of at most `chunk_size` bytes, and then zero bytes, the constructor hands to
`out.write` exactly the blocks `bs`, each once, whole and in the order of the reads,
under every schedule of the write tasks; it issues one read per block and one more that
returns zero, and leaves the rest of the connection unread.  When the file can be
created, the stream accepts the writes and the write of the last block runs as soon as
it is started, the backing file holds the concatenation of the blocks. -/
theorem writes_are_the_blocks (h : Helpers) (env : Env) (a : Args)
    (bs rest : List (List byte)) (hcon : env.con = bs ++ [] :: rest)
    (hbs : ∀ b ∈ bs, b ≠ [] ∧ b.length ≤ a.chunk_size) :
    ∃ r, construct h env a = some r ∧ payloads r.trace = bs ∧
      (payloads r.trace).flatten = bs.flatten ∧
      read_sizes r.trace = bs.map List.length ++ [0] ∧ r.con = rest ∧
      (env.open_ok = true → (∀ k, env.write_ok k = true) →
        env.eager (bs.length - 1) = true → r.file = some bs.flatten) := by
  obtain ⟨s', hs', hr⟩ := construct_eq h env a
  have hft := finish_trace env s'
  have het := entry_trace h env a
  have hcount := stream_inv h env a.chunk_size (sniff h env a).delim_ a.quote
    (fun s => s.i < 2 ∧ Counted env s)
    (fun s hs _ => ⟨by rw [loop_body_i]; omega,
      loop_body_counted h env a.chunk_size (sniff h env a).delim_ a.quote s hs.1 hs.2⟩)
    _ _ _ ⟨by rw [entry_i]; omega, entry_counted h env a⟩ hs'
  have hfile : payloads s'.trace ++ pending s' = bs → env.open_ok = true →
      (∀ k, env.write_ok k = true) → env.eager (bs.length - 1) = true →
      (finish env s').file = some bs.flatten := by
    intro hall ho hw hlast
    have hflow := stream_inv h env a.chunk_size (sniff h env a).delim_ a.quote Flowing
      (fun s hs _ => loop_body_flowing h env a.chunk_size (sniff h env a).delim_ a.quote s hw hs)
      _ _ _ (entry_flowing h env a ho) hs'
    have hlen : s'.launched = bs.length := by
      rw [hcount.1.2.1, ← List.length_append, hall]
    have hpend : pending s' = [] := by
      unfold pending
      rcases hf : s'.fut with _ | t
      · rfl
      · have hran := hcount.1.2.2 t hf
        rw [hlen, hlast] at hran
        simp [hran]
    rw [hpend, List.append_nil] at hall
    rw [finish_file env s' hflow.1, hall]
  rcases bs with _ | ⟨b, bs⟩
  · have he := entry_read_cons h env a [] rest (by simpa using hcon)
    have hz : (entry h env a).sz = 0 := by simpa using he.1
    rw [stream_zero_sz _ _ _ _ _ _ _ hz] at hs'
    cases hs'
    refine ⟨_, hr, ?_, ?_, ?_, ?_, hfile (by rw [het.1, het.2.1]; rfl)⟩
    · rw [hft.1, het.1, het.2.1]
      rfl
    · rw [hft.1, het.1, het.2.1]
      rfl
    · rw [hft.2.1, het.2.2.2, hz]
      rfl
    · rw [finish_con, he.2.1]
  · have he := entry_read_cons h env a b (bs ++ [] :: rest) (by simpa using hcon)
    have hbb := hbs b (List.mem_cons_self _ _)
    rw [List.take_of_length_le hbb.2] at he
    obtain ⟨s2, hs2, hcon2, hpay, hread⟩ := stream_blocks h env a.chunk_size
      (sniff h env a).delim_ a.quote bs (env.con.length + 1) (entry h env a) rest
      (fun x hx => hbs x (List.mem_cons_of_mem _ hx)) (by rw [entry_i]; omega)
      (by rw [he.1]; exact List.length_pos.mpr hbb.1) he.2.1
      (by rw [hcon]; simp; omega)
    have hsame : s2 = s' := Option.some.inj (hs2.symm.trans hs')
    rw [hsame] at hcon2 hpay hread
    have hall : payloads s'.trace ++ pending s' = b :: bs := by
      rw [hpay, het.1, het.2.1, he.2.2]
      rfl
    have hp : payloads (finish env s').trace = b :: bs := by
      rw [hft.1, hall]
    refine ⟨_, hr, hp, by rw [hp], ?_, ?_, hfile hall⟩
    · rw [hft.2.1, hread, het.2.2.2, he.1]
      simp
    · rw [finish_con, hcon2]

/-- An instance of `writes_are_the_blocks`: two blocks of four bytes, then the end of the data. -/
theorem writes_are_the_blocks_instance :
    (∀ b ∈ [[97, 44, 98, 10], [49, 44, 50, 10]],
        b ≠ [] ∧ b.length ≤ (sample_args 8 false).chunk_size) ∧
      ∃ r, construct sample_helpers
          (sample_env ([[97, 44, 98, 10], [49, 44, 50, 10]] ++ [] :: []) true)
          (sample_args 8 false) = some r ∧
        payloads r.trace = [[97, 44, 98, 10], [49, 44, 50, 10]] ∧
        (payloads r.trace).flatten = [[97, 44, 98, 10], [49, 44, 50, 10]].flatten ∧
        read_sizes r.trace = [[97, 44, 98, 10], [49, 44, 50, 10]].map List.length ++ [0] ∧
        r.con = [] ∧
        ((sample_env ([[97, 44, 98, 10], [49, 44, 50, 10]] ++ [] :: []) true).open_ok = true →
          (∀ k, (sample_env ([[97, 44, 98, 10], [49, 44, 50, 10]] ++ [] :: []) true).write_ok k
            = true) →
          (sample_env ([[97, 44, 98, 10], [49, 44, 50, 10]] ++ [] :: []) true).eager
            ([[97, 44, 98, 10], [49, 44, 50, 10]].length - 1) = true →
          r.file = some [[97, 44, 98, 10], [49, 44, 50, 10]].flatten) :=
  ⟨by decide,
    writes_are_the_blocks sample_helpers
      (sample_env ([[97, 44, 98, 10], [49, 44, 50, 10]] ++ [] :: []) true) (sample_args 8 false)
      [[97, 44, 98, 10], [49, 44, 50, 10]] [] rfl (by decide)⟩

/-- When the write of the last block runs only when it is joined, it runs after
`out.close()` and is refused: the backing file ends without the last block. -/
theorem last_block_lost_when_late (h : Helpers) (env : Env) (a : Args)
    (bs rest : List (List byte)) (hcon : env.con = bs ++ [] :: rest)
    (hbs : ∀ b ∈ bs, b ≠ [] ∧ b.length ≤ a.chunk_size) (hne : bs ≠ [])
    (ho : env.open_ok = true) (hw : ∀ k, env.write_ok k = true)
    (hlate : env.eager (bs.length - 1) = false) :
    ∃ r, construct h env a = some r ∧ payloads r.trace = bs ∧
      r.file = some bs.dropLast.flatten := by
  obtain ⟨r, hr, hpay, -, -, -, -⟩ := writes_are_the_blocks h env a bs rest hcon hbs
  obtain ⟨s', hs', hr'⟩ := construct_eq h env a
  have hrun : r = finish env s' := Option.some.inj (hr.symm.trans hr')
  subst hrun
  have hall : payloads s'.trace ++ pending s' = bs := by
    rw [← (finish_trace env s').1]
    exact hpay
  have hcount := stream_inv h env a.chunk_size (sniff h env a).delim_ a.quote
    (fun s => s.i < 2 ∧ Counted env s ∧ (0 < s.launched → s.fut ≠ none))
    (fun s hs _ => ⟨by rw [loop_body_i]; omega,
      loop_body_counted h env a.chunk_size (sniff h env a).delim_ a.quote s hs.1 hs.2.1,
      fun _ => (loop_body_trace h env a.chunk_size (sniff h env a).delim_ a.quote s).2.2.2⟩)
    _ _ _ ⟨by rw [entry_i]; omega, entry_counted h env a,
      fun hl => absurd hl (by
        have : (entry h env a).launched = 0 := rfl
        omega)⟩ hs'
  have hflow := stream_inv h env a.chunk_size (sniff h env a).delim_ a.quote Flowing
    (fun s hs _ => loop_body_flowing h env a.chunk_size (sniff h env a).delim_ a.quote s hw hs)
    _ _ _ (entry_flowing h env a ho) hs'
  have hlen : s'.launched = bs.length := by
    rw [hcount.1.2.1.1, ← List.length_append, hall]
  have hpos : 0 < bs.length := List.length_pos.mpr hne
  obtain ⟨t, hf⟩ : ∃ t, s'.fut = some t := by
    rcases hf : s'.fut with _ | t
    · exact absurd hf (hcount.1.2.2 (by omega))
    · exact ⟨t, rfl⟩
  have hran : t.ran = false := by
    rw [hcount.1.2.1.2 t hf, hlen, hlate]
  have hpend : pending s' = [(s'.buf t.b).take t.sz] := by
    simp [pending, hf, hran]
  refine ⟨finish env s', hr', hpay, ?_⟩
  rw [finish_file env s' hflow.1, ← hall, hpend, List.dropLast_concat]

/-! ## The column count -/

/-- The column count in terms of `first_row`: when the loop is
entered `columns_` is the number of offsets `index_region` appended to `idx_[0]` for the
range from the start of the first line to just past the first newline, and the
constructor ends with the same `columns_` and the same `idx_[0]` (the boundary entry
`start - 1` followed by these offsets), whatever the later chunks hold. -/
theorem columns_from_first_row (h : Helpers) (env : Env) (a : Args)
    (hlen : (first_row h a (sniff h env a)).length < 2 ^ 64) :
    (entry h env a).self.columns_ = (first_row h a (sniff h env a)).length ∧
      ∃ r, construct h env a = some r ∧
        r.self.columns_ = (first_row h a (sniff h env a)).length ∧
        r.self.columns_ = r.self.idx_0.length - 1 ∧
        r.self.idx_0 =
          usize ((sniff h env a).start + 2 ^ 64 - 1) :: first_row h a (sniff h env a) := by
  have hcol : (entry h env a).self.columns_ = (first_row h a (sniff h env a)).length := by
    rw [entry_columns]
    unfold usize
    omega
  obtain ⟨s', hs', hr⟩ := construct_eq h env a
  have hinv := stream_inv h env a.chunk_size (sniff h env a).delim_ a.quote
    (fun s => s.self.columns_ = (entry h env a).self.columns_ ∧
      s.self.idx_0 = (entry h env a).self.idx_0)
    (fun s hs _ => by
      have hb := loop_body_self h env a.chunk_size (sniff h env a).delim_ a.quote s
      exact ⟨hb.1.trans hs.1, hb.2.trans hs.2⟩)
    _ _ _ ⟨rfl, rfl⟩ hs'
  have hf := finish_self env s'
  refine ⟨hcol, finish env s', hr, ?_, ?_, ?_⟩
  · rw [hf.1, hinv.1.1, hcol]
  · rw [hf.1, hinv.1.1, hcol, hf.2.1, hinv.1.2, entry_idx_0]
    simp
  · rw [hf.2.1, hinv.1.2, entry_idx_0]

/-- An instance of `columns_from_first_row`: the header row `a,b` has two columns. -/
theorem columns_from_first_row_instance :
    (first_row sample_helpers (sample_args 16 true)
        (sniff sample_helpers (sample_env [[97, 44, 98, 10, 49, 44, 50, 10]] true)
          (sample_args 16 true))).length < 2 ^ 64 ∧
      ((entry sample_helpers (sample_env [[97, 44, 98, 10, 49, 44, 50, 10]] true)
          (sample_args 16 true)).self.columns_ =
        (first_row sample_helpers (sample_args 16 true)
          (sniff sample_helpers (sample_env [[97, 44, 98, 10, 49, 44, 50, 10]] true)
            (sample_args 16 true))).length ∧
      ∃ r, construct sample_helpers (sample_env [[97, 44, 98, 10, 49, 44, 50, 10]] true)
          (sample_args 16 true) = some r ∧
        r.self.columns_ = (first_row sample_helpers (sample_args 16 true)
          (sniff sample_helpers (sample_env [[97, 44, 98, 10, 49, 44, 50, 10]] true)
            (sample_args 16 true))).length ∧
        r.self.columns_ = r.self.idx_0.length - 1 ∧
        r.self.idx_0 =
          usize ((sniff sample_helpers (sample_env [[97, 44, 98, 10, 49, 44, 50, 10]] true)
            (sample_args 16 true)).start + 2 ^ 64 - 1) ::
            first_row sample_helpers (sample_args 16 true)
              (sniff sample_helpers (sample_env [[97, 44, 98, 10, 49, 44, 50, 10]] true)
                (sample_args 16 true))) :=
  ⟨by decide,
    columns_from_first_row sample_helpers
      (sample_env [[97, 44, 98, 10, 49, 44, 50, 10]] true) (sample_args 16 true) (by decide)⟩

theorem loop_body_header_scans (h : Helpers) (env : Env) (n : Nat) (d : List byte) (q : byte)
    (s : Locals) : header_scans (loop_body h env n d q s).trace = header_scans s.trace := by
  rcases hf : s.fut with _ | t
  · by_cases he : env.eager s.launched = true <;>
    simp [loop_body, read_chunk, fut_async, fut_wait, scan_chunk, run_write, Locals.set_buf, hf, he,
      header_scans, List.filterMap_append]
  · by_cases hr : t.ran = true <;> by_cases he : env.eager s.launched = true <;>
    simp [loop_body, read_chunk, fut_async, fut_wait, scan_chunk, run_write, Locals.set_buf, hf, he, hr,
      header_scans, List.filterMap_append]

theorem finish_header_scans (env : Env) (s : Locals) :
    header_scans (finish env s).trace = header_scans s.trace := by
  rcases hf : s.fut with _ | t
  · simp [finish, fut_destroy, hf, header_scans, List.filterMap_append]
  · by_cases hr : t.ran = true <;>
    simp [finish, fut_destroy, hf, hr, header_scans, List.filterMap_append, run_write]

/-- The loop and the end of the constructor leave `columns_` and `idx_[0]` as they are
when the loop is entered, and call `index_region` for `idx_[0]` no more. -/
theorem columns_fixed (h : Helpers) (env : Env) (a : Args) :
    ∃ r, construct h env a = some r ∧ r.self.columns_ = (entry h env a).self.columns_ ∧
      r.self.idx_0 = (entry h env a).self.idx_0 ∧
      header_scans r.trace = header_scans (entry h env a).trace := by
  obtain ⟨s', hs', hr⟩ := construct_eq h env a
  have hinv := stream_inv h env a.chunk_size (sniff h env a).delim_ a.quote
    (fun s => s.self.columns_ = (entry h env a).self.columns_ ∧
      s.self.idx_0 = (entry h env a).self.idx_0 ∧
      header_scans s.trace = header_scans (entry h env a).trace)
    (fun s hs _ => by
      have hb := loop_body_self h env a.chunk_size (sniff h env a).delim_ a.quote s
      have hb2 := loop_body_header_scans h env a.chunk_size (sniff h env a).delim_ a.quote s
      exact ⟨hb.1.trans hs.1, hb.2.trans hs.2.1, hb2.trans hs.2.2⟩)
    _ _ _ ⟨rfl, rfl, rfl⟩ hs'
  have hf := finish_self env s'
  exact ⟨finish env s', hr, hf.1.trans hinv.1.1, hf.2.1.trans hinv.1.2.1,
    (finish_header_scans env s').trans hinv.1.2.2⟩

/-! ## The claims -/

/-- C1 (the code at the failing input): two blocks of four bytes are read, then the end
of the data, and the write of the last block runs only when it is joined.  The constructor
returns after the reads of 4, 4 and 0 bytes; both blocks were handed to `out.write`, but
the second one after `out.close()`: the mapped content and the backing file are the first
block alone, not the concatenation of the two. -/
theorem C1_last_block_not_in_file :
    (construct sample_helpers (sample_env [[97, 44, 98, 10], [49, 44, 50, 10]] false)
        (sample_args 8 false)).map
      (fun r => (r.outcome, read_sizes r.trace, payloads r.trace)) =
      some (Outcome.returned, [4, 4, 0], [[97, 44, 98, 10], [49, 44, 50, 10]]) ∧
    (construct sample_helpers (sample_env [[97, 44, 98, 10], [49, 44, 50, 10]] false)
        (sample_args 8 false)).map
      (fun r => (r.self.mmap_, r.file)) =
      some (some [97, 44, 98, 10], some [97, 44, 98, 10]) :=
  ⟨by decide, by decide⟩

/-- C2 (the code at the failing input): for the single chunk `a,b` newline, with the
write task running when it is joined, the driving thread starts the write, reads the end
of the data and calls `out.close()` and the mapping without any `fut.wait()`: the task
is still in flight at `out.close()`, its `out.write` comes after the close and is
refused, and the backing file stays empty. -/
theorem C2_final_write_not_awaited :
    (construct sample_helpers (sample_env [[97, 44, 98, 10]] false) (sample_args 8 false)).map
      (fun r => (r.trace, (monitor (before_close r.trace)).in_flight, r.file)) =
      some ([Event.read 0 8 4, Event.scan 0 0 0 4 0, Event.scan 0 1 3 5 0, Event.launch 0 4,
          Event.read 1 8 0, Event.close, Event.mmap, Event.write [97, 44, 98, 10] false],
        some 0, some []) := by
  decide

/-- C3 (as amended): when the constructor returns, `rows_` is `total / columns_`, minus
one if a header is present, where `total` counts the offsets of `idx_[0]` and of
`idx_[1]` without the first entry of each: `(idx_[0].size() - 1) + (idx_[1].size() - 1)`.
This holds when `idx_[1]` is not empty, the total fits an `int`, and, with a header, there
is at least one row to remove. -/
theorem C3_rows_from_offsets (h : Helpers) (env : Env) (a : Args) (r : Run)
    (hr : construct h env a = some r) (hret : r.outcome = Outcome.returned)
    (h1 : r.self.idx_1 ≠ [])
    (hs : r.self.idx_0.length - 1 + (r.self.idx_1.length - 1) < 2 ^ 31)
    (hh : a.has_header = true →
      r.self.columns_ ≤ r.self.idx_0.length - 1 + (r.self.idx_1.length - 1)) :
    r.self.rows_ = (r.self.idx_0.length - 1 + (r.self.idx_1.length - 1)) / r.self.columns_ -
      (if a.has_header then 1 else 0) := by
  obtain ⟨s', hs', hr'⟩ := construct_eq h env a
  have hrun : r = finish env s' := Option.some.inj (hr.symm.trans hr')
  subst hrun
  have hinv := stream_inv h env a.chunk_size (sniff h env a).delim_ a.quote
    (fun s => s.self.idx_0 = (entry h env a).self.idx_0 ∧ s.self.has_header_ = a.has_header)
    (fun s hs _ => by
      have hb := loop_body_self h env a.chunk_size (sniff h env a).delim_ a.quote s
      have hb2 := loop_body_has_header h env a.chunk_size (sniff h env a).delim_ a.quote s
      exact ⟨hb.2.trans hs.1, hb2.trans hs.2⟩)
    _ _ _ ⟨rfl, entry_has_header h env a⟩ hs'
  have hf := finish_self env s'
  have hset : s'.self.columns_ ≠ 0 ∧ (finish env s').self.rows_ = count_rows s'.self :=
    settle_returned (env.make_mmap_source s'.out.close.file) s'.out.close.file s'.self hret
  simp only [hf.1, hf.2.1, hf.2.2.1] at hs hh h1 ⊢
  have h0 : 1 ≤ s'.self.idx_0.length := by
    rw [hinv.1.1, entry_idx_0]
    simp
  have h1' : 1 ≤ s'.self.idx_1.length := by
    rcases hl : s'.self.idx_1 with _ | ⟨x, l⟩
    · exact absurd hl h1
    · simp
  rw [hset.2, count_rows_exact s'.self h0 h1' hs hset.1 (fun hd => hh (hinv.1.2 ▸ hd)), hinv.1.2]

/-- An instance of C3: four offsets without the boundary entries, two columns, a header:
one row. -/
theorem C3_rows_from_offsets_witness :
    header_run.outcome = Outcome.returned ∧ header_run.self.idx_1 ≠ [] ∧
      header_run.self.idx_0.length - 1 + (header_run.self.idx_1.length - 1) < 2 ^ 31 ∧
      header_run.self.columns_ ≤
        header_run.self.idx_0.length - 1 + (header_run.self.idx_1.length - 1) ∧
      header_run.self.rows_ =
        (header_run.self.idx_0.length - 1 + (header_run.self.idx_1.length - 1)) /
          header_run.self.columns_ - (if (sample_args 16 true).has_header then 1 else 0) :=
  ⟨by decide, by decide, by decide, by decide,
    C3_rows_from_offsets sample_helpers (sample_env [[97, 44, 98, 10, 49, 44, 50, 10]] true)
      (sample_args 16 true) header_run (Option.some_get _).symm (by decide) (by decide)
      (by decide) (fun _ => by decide)⟩

/-- C3 (counterexample): for the eight bytes `a,b` newline `1,2` newline without a header
the constructor returns with three entries in `idx_[0]`, three in `idx_[1]` and two
columns, and `rows_` is 2, not `(3 + 3) / 2 = 3`. -/
theorem C3_rows_not_all_offsets :
    (construct sample_helpers (sample_env [[97, 44, 98, 10, 49, 44, 50, 10]] true)
        (sample_args 16 false)).map
      (fun r => (r.outcome, r.self.idx_0.length, r.self.idx_1.length, r.self.columns_,
        r.self.rows_, (r.self.idx_0.length + r.self.idx_1.length) / r.self.columns_)) =
      some (Outcome.returned, 3, 3, 2, 2, 3) := by
  decide

/-- C4: the column count is established once, from the first row of the first chunk.
With `buf` the first chunk as read into the zeroed buffer, `start` the result of
`find_first_line`, `delim_` the given or guessed delimiter and `first_nl` the result of
`find_next_newline`, let `offsets` be what `index_region` appends to `idx_[0]` for the range
from `start` to `first_nl + 1` with file offset 0.  The constructor ends with `columns_`
equal to the number of these offsets, which is `idx_[0].size() - 1`, with `idx_[0]` equal
to the boundary entry `start - 1` followed by them, and with this one call as the only
call of `index_region` for `idx_[0]`: no scan of the rest of the first chunk or of a later
chunk changes them. -/
theorem C4_columns_from_first_row (h : Helpers) (env : Env) (a : Args) :
    let buf := (R_ReadConnection env.con (List.replicate a.chunk_size 0) a.chunk_size).2.1
    let self0 : index_connection :=
      { has_header_ := a.has_header, quote_ := a.quote, trim_ws_ := a.trim_ws,
        escape_double_ := a.escape_double, escape_backslash_ := a.escape_backslash,
        comment_ := a.comment, skip_ := a.skip, progress_ := a.progress,
        delim_len_ := 0, windows_newlines_ := false, idx_0 := [], idx_1 := [],
        columns_ := 0, rows_ := 0, mmap_ := none }
    let start := h.find_first_line self0 buf
    let delim_ :=
      match a.delim with
      | none => [h.guess_delim self0 buf start]
      | some d => d
    let self1 := { self0 with delim_len_ := delim_.length }
    let first_nl := h.find_next_newline self1 buf start
    let self2 :=
      { self1 with
        windows_newlines_ := decide (0 < first_nl) && decide (buf.getD (first_nl - 1) 0 = 13),
        idx_0 := [usize (start + 2 ^ 64 - 1)] }
    let offsets := h.index_region self2 buf delim_ a.quote start (usize (first_nl + 1)) 0
    ∃ r, construct h env a = some r ∧
      r.self.columns_ = usize offsets.length ∧
      (offsets.length < 2 ^ 64 → r.self.columns_ = offsets.length) ∧
      r.self.idx_0 = usize (start + 2 ^ 64 - 1) :: offsets ∧
      r.self.columns_ = usize (r.self.idx_0.length + 2 ^ 64 - 1) ∧
      header_scans r.trace = [(start, usize (first_nl + 1), 0)] := by
  intro buf self0 start delim_ self1 first_nl self2 offsets
  obtain ⟨r, hr, hcol, hidx, hscan⟩ := columns_fixed h env a
  have e1 : (entry h env a).self.idx_0 = usize (start + 2 ^ 64 - 1) :: offsets := rfl
  have e2 : (entry h env a).self.columns_ =
      usize ((usize (start + 2 ^ 64 - 1) :: offsets).length + 2 ^ 64 - 1) := rfl
  have e3 : header_scans (entry h env a).trace = [(start, usize (first_nl + 1), 0)] := by
    simp [entry, index_first_row, sniff, read_chunk, Locals.set_buf, header_scans, start,
      first_nl, delim_, self0, self1, buf, Locals.buf]
  have e4 : usize ((usize (start + 2 ^ 64 - 1) :: offsets).length + 2 ^ 64 - 1) =
      usize offsets.length := by
    unfold usize
    simp only [List.length_cons]
    omega
  refine ⟨r, hr, ?_, ?_, ?_, ?_, ?_⟩
  · rw [hcol, e2, e4]
  · intro hlen
    rw [hcol, e2, e4]
    exact Nat.mod_eq_of_lt hlen
  · rw [hidx, e1]
  · rw [hcol, e2, hidx, e1]
  · rw [hscan, e3]

/-- An instance of C4: the first chunk starts with the row `a,b`, the second chunk is the
row `3,4,5`; `columns_` is 2 and `idx_[0]` holds the boundary entry and the offsets 1
and 3 of the first row. -/
theorem C4_columns_from_first_row_witness :
    ∃ r, construct sample_helpers
        (sample_env [[97, 44, 98, 10, 49, 44, 50, 10], [51, 44, 52, 44, 53, 10]] true)
        (sample_args 16 true) = some r ∧
      r.self.columns_ = 2 ∧ r.self.idx_0 = [18446744073709551615, 1, 3] ∧
      r.self.idx_1 = [3, 5, 7, 9, 11, 13] ∧ header_scans r.trace = [(0, 4, 0)] := by
  obtain ⟨r, hr, hcol, -, hidx, -, hscan⟩ := C4_columns_from_first_row sample_helpers
    (sample_env [[97, 44, 98, 10, 49, 44, 50, 10], [51, 44, 52, 44, 53, 10]] true)
    (sample_args 16 true)
  have hrun : (construct sample_helpers
      (sample_env [[97, 44, 98, 10, 49, 44, 50, 10], [51, 44, 52, 44, 53, 10]] true)
      (sample_args 16 true)).map (fun r => r.self.idx_1) = some [3, 5, 7, 9, 11, 13] := by
    decide
  rw [hr] at hrun
  exact ⟨r, hr, hcol.trans (by decide), hidx.trans (by decide), Option.some.inj hrun,
    hscan.trans (by decide)⟩

/-- C5 (the code at the failing input): for the three bytes `abc`, without delimiter and
newline, the scan of the first row appends nothing, `columns_` is 0, no error is raised
and the constructor goes on to divide `total_size` by `columns_`. -/
theorem C5_zero_columns_divides :
    (construct sample_helpers (sample_env [[97, 98, 99]] true) (sample_args 8 false)).map
      (fun r => (r.self.idx_0.length - 1, r.self.columns_, r.outcome)) =
      some (0, 0, Outcome.div_by_zero) := by
  decide

/-- C6 (as amended): if the backing file cannot be created, so that there is no file to
map, and `make_mmap_source` reports an error for the missing file, the constructor
throws with this error. -/
theorem C6_missing_file_throws (h : Helpers) (env : Env) (a : Args)
    (hopen : env.open_ok = false) (hmap : env.make_mmap_source none ≠ 0) :
    ∃ r, construct h env a = some r ∧
      r.outcome = Outcome.threw (env.make_mmap_source none) ∧ r.file = none := by
  obtain ⟨s', hs', hr⟩ := construct_eq h env a
  have hinv := stream_inv h env a.chunk_size (sniff h env a).delim_ a.quote
    (fun s => s.out.file = none)
    (fun s hs _ => loop_body_file_none h env a.chunk_size (sniff h env a).delim_ a.quote s hs)
    _ _ _ (entry_file_none h env a hopen) hs'
  have hnone : s'.out.file = none := hinv.1
  have hclose : s'.out.close.file = none := by
    unfold ofstream.close
    split <;> simpa using hnone
  refine ⟨finish env s', hr, ?_, ?_⟩
  · show (settle (env.make_mmap_source s'.out.close.file) s'.out.close.file s'.self).1 = _
    rw [hclose]
    unfold settle
    rw [if_pos hmap]
  · rcases hf : s'.fut with _ | t
    · simp [finish, fut_destroy, hf, hclose]
    · by_cases hran : t.ran = true <;>
      simp [finish, fut_destroy, hf, hran, hclose, run_write, ofstream_write_none]

/-- An instance of C6: no file can be created, the mapping reports the error 2. -/
theorem C6_missing_file_throws_witness :
    (no_file_env [[97, 44, 98, 10]]).open_ok = false ∧
      (no_file_env [[97, 44, 98, 10]]).make_mmap_source none ≠ 0 ∧
      ∃ r, construct sample_helpers (no_file_env [[97, 44, 98, 10]]) (sample_args 8 false) =
          some r ∧
        r.outcome = Outcome.threw ((no_file_env [[97, 44, 98, 10]]).make_mmap_source none) ∧
        r.file = none :=
  ⟨rfl, by decide,
    C6_missing_file_throws sample_helpers (no_file_env [[97, 44, 98, 10]]) (sample_args 8 false)
      rfl (by decide)⟩

/-- C6 (counterexample): two chunks of four bytes are read and the stream refuses the
second write; the constructor returns, and the backing file holds the first four of the
eight bytes read. -/
theorem C6_write_failure_unnoticed :
    (construct sample_helpers (full_disk_env [[97, 44, 98, 10], [49, 44, 50, 10]])
        (sample_args 8 false)).map
      (fun r => (r.outcome, r.file, (payloads r.trace).flatten)) =
      some (Outcome.returned, some [97, 44, 98, 10], [97, 44, 98, 10, 49, 44, 50, 10]) := by
  decide

/-- C7: along every run of the constructor no write task is started while another one
is in flight, that is, started and not yet waited for. -/
theorem C7_one_write_in_flight (h : Helpers) (env : Env) (a : Args) :
    ∃ r, construct h env a = some r ∧ (monitor r.trace).one_at_a_time = true := by
  obtain ⟨s', hs', hr⟩ := construct_eq h env a
  have hinv := stream_inv h env a.chunk_size (sniff h env a).delim_ a.quote Settled
    (fun s hs _ => loop_body_settled h env a.chunk_size (sniff h env a).delim_ a.quote s hs)
    _ _ _ (entry_settled h env a) hs'
  refine ⟨finish env s', hr, ?_⟩
  rw [(finish_trace env s').2.2.2.1]
  exact hinv.1.2.1

/-- C9: the buffers scanned by the iterations of the loop are 0, 1, 0, 1, .. in this
order, and along every run no buffer is filled by `R_ReadConnection` or scanned by
`index_region` while the write task in flight is on that buffer. -/
theorem C9_buffers_alternate_and_apart (h : Helpers) (env : Env) (a : Args) :
    ∃ r, construct h env a = some r ∧ (monitor r.trace).buffers_apart = true ∧
      chunk_bufs r.trace = (List.range (chunk_bufs r.trace).length).map (fun k => k % 2) := by
  obtain ⟨s', hs', hr⟩ := construct_eq h env a
  have hinv := stream_inv h env a.chunk_size (sniff h env a).delim_ a.quote
    (fun s => Settled s ∧ s.i = (chunk_bufs s.trace).length % 2 ∧
      chunk_bufs s.trace = (List.range (chunk_bufs s.trace).length).map (fun k => k % 2))
    (fun s hs _ => by
      refine ⟨loop_body_settled h env a.chunk_size (sniff h env a).delim_ a.quote s hs.1, ?_, ?_⟩
      · rw [loop_body_i, loop_body_chunk_bufs, hs.2.1]
        simp [Nat.add_mod]
      · rw [loop_body_chunk_bufs, List.length_append, List.length_singleton, List.range_succ,
          List.map_append, ← hs.2.2, hs.2.1]
        simp)
    _ _ _ ⟨entry_settled h env a, by rw [entry_i, (entry_trace h env a).2.2.1]; simp,
      by rw [(entry_trace h env a).2.2.1]; simp⟩ hs'
  refine ⟨finish env s', hr, ?_, ?_⟩
  · rw [(finish_trace env s').2.2.2.2]
    exact hinv.1.1.2.2.1
  · rw [(finish_trace env s').2.2.1]
    exact hinv.1.2.2


/-- C10 (the code at the failing input): with `chunk_size` 4 and a first read that fills
the buffer with the four bytes `a,b` newline, the first row is scanned over `[0, 4)` and
the chunk over `[3, 5)`: the end `sz + 1 = 5` is past the four bytes of the buffer. -/
theorem C10_chunk_scan_past_buffer :
    (construct sample_helpers (sample_env [[97, 44, 98, 10]] true) (sample_args 4 false)).map
      (fun r => (scan_ranges r.trace,
        (scan_ranges r.trace).map (fun e => decide (e.2 ≤ (sample_args 4 false).chunk_size)))) =
      some ([(0, 4), (3, 5)], [true, false]) := by
  decide

/-- C11 (the code at the failing input): when the first read returns `2 ^ 31` bytes and
the second read is not empty, the chunks are scanned with the file offsets 0 and
`2 ^ 64 - 2 ^ 31`: the `int` variable `total_read` has wrapped to `- 2 ^ 31`, and the
second offset is not the `2 ^ 31` bytes read before the second chunk. -/
theorem C11_offset_wraps_past_int_max (h : Helpers) (env : Env) (a : Args)
    (b0 b1 : List byte) (rest : List (List byte)) (hcon : env.con = [b0, b1] ++ [] :: rest)
    (h0 : b0.length = 2 ^ 31) (hn : 2 ^ 31 ≤ a.chunk_size) (h1 : b1 ≠ [])
    (h1n : b1.length ≤ a.chunk_size) :
    ∃ r, construct h env a = some r ∧
      chunk_offsets r.trace = [0, 2 ^ 64 - 2 ^ 31] ∧
      exact_offsets 0 ([b0, b1].map List.length) = [0, 2 ^ 31] := by
  obtain ⟨r, hr, hoff⟩ := construct_offsets h env a [b0, b1] rest hcon (by
    intro b hb
    simp only [List.mem_cons, List.mem_singleton, List.not_mem_nil, or_false] at hb
    rcases hb with rfl | rfl
    · exact ⟨fun hnil => by rw [hnil] at h0; simp at h0, by omega⟩
    · exact ⟨h1, h1n⟩)
  refine ⟨r, hr, ?_, ?_⟩
  · rw [hoff]
    simp only [List.map, exact_offsets, h0]
    decide
  · simp only [List.map, exact_offsets, h0, Nat.zero_add]

/-- An instance of C11: a first read of `2 ^ 31` bytes and a second read of one byte,
with buffers of `2 ^ 31` bytes. -/
theorem C11_offset_wraps_past_int_max_witness :
    (sample_env ([List.replicate (2 ^ 31) 97, [98]] ++ [] :: []) true).con =
        [List.replicate (2 ^ 31) 97, [98]] ++ [] :: [] ∧
      (List.replicate (2 ^ 31) 97).length = 2 ^ 31 ∧
      2 ^ 31 ≤ (sample_args (2 ^ 31) false).chunk_size ∧ [98] ≠ ([] : List byte) ∧
      [98].length ≤ (sample_args (2 ^ 31) false).chunk_size ∧
      ∃ r, construct sample_helpers
          (sample_env ([List.replicate (2 ^ 31) 97, [98]] ++ [] :: []) true)
          (sample_args (2 ^ 31) false) = some r ∧
        chunk_offsets r.trace = [0, 2 ^ 64 - 2 ^ 31] ∧
        exact_offsets 0 ([List.replicate (2 ^ 31) 97, [98]].map List.length) = [0, 2 ^ 31] :=
  ⟨rfl, List.length_replicate _ _, Nat.le_refl _, List.cons_ne_nil _ _, by
      show 1 ≤ 2 ^ 31
      omega,
    C11_offset_wraps_past_int_max sample_helpers
      (sample_env ([List.replicate (2 ^ 31) 97, [98]] ++ [] :: []) true)
      (sample_args (2 ^ 31) false) (List.replicate (2 ^ 31) 97) [98] [] rfl
      (List.length_replicate _ _) (Nat.le_refl _) (List.cons_ne_nil _ _) (by
        show 1 ≤ 2 ^ 31
        omega)⟩

end vroom
